import Mathlib

/-!
# Verification of the quotation/document generation subsystem

Shallow embedding of the template preview, repair and rendering-context
code (quotation preview routes, enhanced-template maintenance routes and
the PDF print route) together with proofs of the behavioural claims made
by the specification.

Strings from the JavaScript source are modelled as `List Char`; JavaScript
numbers are modelled as exact rationals together with an explicit `NaN`
marker; JSON text is modelled by an executable validator faithful to the
JSON grammar accepted by `JSON.parse`.
-/

namespace AspCranes

/-- JavaScript number: a finite value (modelled exactly as a rational),
an infinity (`inf false` is `+Infinity`, `inf true` is `-Infinity`), or
`NaN`. Finite values are kept as exact rationals rather than rounded
binary64 doubles; only the overflow of the double range to `±Infinity`
is modelled, via `overflowToInf` below. -/
inductive JSNum where
  | fin (q : ℚ)
  | inf (neg : Bool)
  | nan
deriving DecidableEq, Repr

/-- The IEEE-754 binary64 overflow threshold under round-to-nearest-even:
an exact magnitude of at least `2^1024 - 2^970` rounds to `±Infinity`. -/
def dblOverflow : ℚ := ((2 ^ 1024 - 2 ^ 970 : ℕ) : ℚ)

/-- An exact rational result read back as a JS number: magnitudes at or
beyond the double overflow threshold become `±Infinity` (e.g. `1e999`). -/
def overflowToInf (q : ℚ) : JSNum :=
  if dblOverflow ≤ q then .inf false
  else if q ≤ -dblOverflow then .inf true
  else .fin q

/-- JavaScript value as it appears in the quotation rows handled by the
mapping code: `undefined`, `null`, a number or a string. -/
inductive JSVal where
  | undef
  | null
  | num (x : JSNum)
  | str (s : List Char)
deriving DecidableEq, Repr

/-- Truthiness of a JS number (`0` and `NaN` are falsy; infinities are
truthy). -/
def JSNum.truthy : JSNum → Bool
  | .fin q => q ≠ 0
  | .inf _ => true
  | .nan => false

/-- JS truthiness for the modelled values. -/
def JSVal.truthy : JSVal → Bool
  | .undef => false
  | .null => false
  | .num x => x.truthy
  | .str s => s ≠ []

/-- JS `a || b` on values. -/
def jsOr (a b : JSVal) : JSVal := if a.truthy then a else b

/-- JS `a || b` where both sides are numbers (used for `parseFloat(v) || 0`). -/
def jsOrNum (a : JSNum) (b : JSNum) : JSNum := if a.truthy then a else b

/-- JS number addition: `NaN` propagates, opposite infinities give `NaN`,
an infinity absorbs a finite addend, and a finite sum overflows to
`±Infinity` past the double range. -/
def JSNum.add : JSNum → JSNum → JSNum
  | .fin a, .fin b => overflowToInf (a + b)
  | .inf n₁, .inf n₂ => if n₁ = n₂ then .inf n₁ else .nan
  | .inf n, .fin _ => .inf n
  | .fin _, .inf n => .inf n
  | _, _ => .nan

/-- JS number multiplication: `NaN` propagates, `Infinity * 0` is `NaN`,
infinities multiply by sign, and a finite product overflows to
`±Infinity` past the double range. -/
def JSNum.mul : JSNum → JSNum → JSNum
  | .fin a, .fin b => overflowToInf (a * b)
  | .inf n₁, .inf n₂ => .inf (n₁ != n₂)
  | .inf n, .fin b => if b = 0 then .nan else .inf (n != decide (b < 0))
  | .fin a, .inf n => if a = 0 then .nan else .inf (n != decide (a < 0))
  | _, _ => .nan

/-- The character for a decimal digit value. -/
def digitChar (n : Nat) : Char := Char.ofNat (48 + n)

/-- Decimal digit characters of a natural number, most significant first
(fueled structural recursion so that terms reduce definitionally; the
fuel `n + 1` always suffices since the argument shrinks by a factor 10). -/
def natCharsAux : Nat → Nat → List Char
  | 0, _ => []
  | fuel + 1, n =>
    if n < 10 then [digitChar n]
    else natCharsAux fuel (n / 10) ++ [digitChar (n % 10)]

/-- Decimal digit characters of a natural number, most significant first. -/
def natChars (n : Nat) : List Char := natCharsAux (n + 1) n

/-- Decimal rendering of an integer (`String(n)` for integral JS numbers). -/
def intChars (n : Int) : List Char :=
  if n < 0 then '-' :: natChars n.natAbs else natChars n.natAbs

/-- Whitespace as recognised by JS `String.prototype.trim` / `parseFloat`
(ASCII subset; the stored template ids and column payloads are ASCII). -/
def jsWsChar (c : Char) : Bool :=
  c = ' ' ∨ c = '\t' ∨ c = '\n' ∨ c = '\r' ∨ c = '\x0b' ∨ c = '\x0c'

/-- JS `s.trim()` on the character-list model of strings. -/
def jsTrimChars (l : List Char) : List Char :=
  ((l.dropWhile jsWsChar).reverse.dropWhile jsWsChar).reverse

/-- Value of a list of decimal digit characters. -/
def digitsToNat (l : List Char) : Nat :=
  l.foldl (fun a c => a * 10 + (c.toNat - 48)) 0

/-- Exponent suffix of a JS numeric literal: `orig` is the input including
the `e`/`E`, used to backtrack when no exponent digits follow. -/
def expDigitsAfter (orig : List Char) (sgn : Int) (r : List Char) : Int × List Char :=
  let ds := r.takeWhile Char.isDigit
  if ds = [] then (0, orig)
  else (sgn * (digitsToNat ds : Int), r.dropWhile Char.isDigit)

/-- Sign handling of the exponent suffix (`orig` includes the `e`/`E`). -/
def expAfter (orig : List Char) (r : List Char) : Int × List Char :=
  match r with
  | '+' :: r2 => expDigitsAfter orig 1 r2
  | '-' :: r2 => expDigitsAfter orig (-1) r2
  | _ => expDigitsAfter orig 1 r

/-- Longest unsigned JS numeric prefix: digits, optional fraction, optional
exponent. Returns the parsed value and the unconsumed rest, or `none` when
no digit is present. Shared by the `parseFloat` and `Number(...)` models. -/
def parseUnsignedNum (t : List Char) : Option (ℚ × List Char) :=
  let ip := t.takeWhile Char.isDigit
  let t1 := t.dropWhile Char.isDigit
  let fpt : List Char × List Char :=
    match t1 with
    | '.' :: r => (r.takeWhile Char.isDigit, r.dropWhile Char.isDigit)
    | _ => ([], t1)
  let fp := fpt.1
  let t2 := fpt.2
  if ip = [] ∧ fp = [] then none
  else
    let mant : ℚ := (digitsToNat ip : ℚ) + (digitsToNat fp : ℚ) / ((10 : ℚ) ^ fp.length)
    let et3 : Int × List Char :=
      match t2 with
      | 'e' :: r => expAfter t2 r
      | 'E' :: r => expAfter t2 r
      | _ => (0, t2)
    some (mant * (10 : ℚ) ^ et3.1, et3.2)

/-- `parseFloat` after the optional sign: the literal prefix `Infinity`
reads as `±Infinity`; otherwise the longest numeric prefix, overflowing
to `±Infinity` past the double range; `NaN` when no digits can be read. -/
def parseFloatTail (neg : Bool) (r : List Char) : JSNum :=
  if "Infinity".toList.isPrefixOf r then .inf neg
  else
    match parseUnsignedNum r with
    | some p => overflowToInf (if neg then -p.1 else p.1)
    | none => .nan

/-- JS `parseFloat` on a string: leading whitespace skipped, optional sign,
then an `Infinity` literal or the longest numeric prefix; `NaN` when no
digits can be read. -/
def parseFloatChars (s : List Char) : JSNum :=
  let t := s.dropWhile jsWsChar
  match t with
  | '-' :: r => parseFloatTail true r
  | '+' :: r => parseFloatTail false r
  | _ => parseFloatTail false t

/-- JS `parseFloat(v)` for a non-string argument first stringifies it;
finite numbers and infinities survive the round trip (`"Infinity"` parses
back), everything else reads as `NaN`. -/
def parseFloatVal : JSVal → JSNum
  | .num (.fin q) => .fin q
  | .num (.inf n) => .inf n
  | .num .nan => .nan
  | .str s => parseFloatChars s
  | .undef => .nan
  | .null => .nan

/-- `numberOrZero` from `mapQuotationToTemplateData`:
`v => (typeof v === 'number' && !isNaN(v)) ? v : (parseFloat(v) || 0)`.
It never yields `NaN` (`NaN || 0` is `0`), but it is not a finiteness
guard: `±Infinity` passes both branches (`typeof Infinity === 'number'`
and `!isNaN(Infinity)`; `parseFloat('Infinity')` is truthy). -/
def numberOrZero (v : JSVal) : JSNum :=
  match v with
  | .num (.fin q) => .fin q
  | .num (.inf n) => .inf n
  | _ => jsOrNum (parseFloatVal v) (.fin 0)

/-- `Number(s)` after the optional sign: the whole rest must be the
`Infinity` literal or a numeric literal (overflowing to `±Infinity` past
the double range), else `NaN`. -/
def numberWhole (neg : Bool) (r : List Char) : JSNum :=
  if r = "Infinity".toList then .inf neg
  else
    match parseUnsignedNum r with
    | some (q, []) => overflowToInf (if neg then -q else q)
    | _ => .nan

/-- JS `Number(s)` string coercion: trimmed; empty reads as `0`; otherwise
the whole string must be a signed numeric or `Infinity` literal, else
`NaN`. -/
def numberFromChars (s : List Char) : JSNum :=
  let t := jsTrimChars s
  match t with
  | [] => .fin 0
  | '-' :: r => numberWhole true r
  | '+' :: r => numberWhole false r
  | _ => numberWhole false t

/-- JS `ToNumber` coercion as applied by `Intl.NumberFormat.format`. -/
def toNumber : JSVal → JSNum
  | .undef => .nan
  | .null => .fin 0
  | .num x => x
  | .str s => numberFromChars s

/-- Rounding to the nearest integer, half away from zero (the `halfExpand`
rounding used by `toFixed` / `Intl.NumberFormat`). -/
def jsRoundHalf (q : ℚ) : Int :=
  if 0 ≤ q then Rat.floor (q + 1 / 2) else -Rat.floor ((1 : ℚ) / 2 - q)

/-- JS `x.toFixed(2)` (`Infinity.toFixed(2)` is `"Infinity"`). -/
def toFixed2 : JSNum → List Char
  | .nan => ['N', 'a', 'N']
  | .inf false => "Infinity".toList
  | .inf true => '-' :: "Infinity".toList
  | .fin q =>
    let r := jsRoundHalf (q * 100)
    let a := r.natAbs
    (if r < 0 then ['-'] else []) ++
      natChars (a / 100) ++ '.' :: [digitChar (a % 100 / 10), digitChar (a % 10)]

/-- Fractional decimal digits of a rational in `[0,1)`, up to the given
number of digits, stopping at an exact zero remainder. -/
def fracDigits : Nat → ℚ → List Char
  | 0, _ => []
  | n + 1, f =>
    if f = 0 then []
    else
      let d := (Rat.floor (f * 10)).toNat
      digitChar d :: fracDigits n (f * 10 - (d : ℚ))

/-- JS `String(x)` for a number: exact for integral values; non-integral
values are rendered with up to 17 decimal digits (exact on every value
arising in this development). -/
def jsNumToStr : JSNum → List Char
  | .nan => ['N', 'a', 'N']
  | .inf false => "Infinity".toList
  | .inf true => '-' :: "Infinity".toList
  | .fin q =>
    if q.den = 1 then intChars q.num
    else
      let a := |q|
      let ipart := (Rat.floor a).toNat
      (if q < 0 then ['-'] else []) ++
        natChars ipart ++ '.' :: fracDigits 17 (a - (ipart : ℚ))

/-- JS template-literal coercion `String(v)`. -/
def jsDisplay : JSVal → List Char
  | .undef => "undefined".toList
  | .null => "null".toList
  | .num x => jsNumToStr x
  | .str s => s

/-- Fueled helper for `group2` (the fuel `l.length` always suffices). -/
def group2Aux : Nat → List Char → List Char
  | 0, l => l
  | fuel + 1, l =>
    if l.length ≤ 2 then l
    else group2Aux fuel (l.take (l.length - 2)) ++ ',' :: l.drop (l.length - 2)

/-- Grouping of the leading digits in the Indian numbering system:
groups of two separated by commas. -/
def group2 (l : List Char) : List Char := group2Aux l.length l

/-- `Intl.NumberFormat('en-IN', currency INR, 0 fraction digits)`:
`₹` plus lakh/crore-grouped digits; `NaN` renders as `₹NaN` and
`±Infinity` as `₹∞` / `-₹∞`. -/
def formatINR : JSNum → List Char
  | .nan => '₹' :: ['N', 'a', 'N']
  | .inf false => '₹' :: ['∞']
  | .inf true => '-' :: '₹' :: ['∞']
  | .fin q =>
    let r := jsRoundHalf q
    let ds := natChars r.natAbs
    let grouped :=
      if ds.length ≤ 3 then ds
      else group2 (ds.take (ds.length - 3)) ++ ',' :: ds.drop (ds.length - 3)
    (if r < 0 then ['-'] else []) ++ '₹' :: grouped

/-- `formatCurrency` from the preview routes:
`amount => Intl.NumberFormat(...).format(amount || 0)`. -/
def formatCurrency (v : JSVal) : List Char :=
  formatINR (toNumber (jsOr v (.num (.fin 0))))

/-- One row of `quotationData.items` as consumed by
`mapQuotationToTemplateData` (fields it reads, all loosely typed). -/
structure ItemData where
  description : JSVal
  equipment_name : JSVal
  quantity : JSVal
  qty : JSVal
  rate : JSVal
  base_rate : JSVal
  unit_price : JSVal
deriving DecidableEq, Repr

/-- The quotation record handed to `mapQuotationToTemplateData`
(top-level fields the mapping reads, plus opaque pass-through blocks). -/
structure QuotationData where
  quotation_number : JSVal
  machine_type : JSVal
  order_type : JSVal
  number_of_days : JSVal
  mob_demob_cost : JSVal
  risk_adjustment : JSVal
  usage_load_factor : JSVal
  base_rate : JSVal
  rate : JSVal
  total_rent : JSVal
  gst_amount : JSVal
  total_cost : JSVal
  working_cost : JSVal
  food_accom_cost : JSVal
  created_at : JSVal
  valid_until : JSVal
  company : JSVal
  customer : JSVal
  items : List ItemData
deriving DecidableEq, Repr

/-- A quotation record with every loose field absent (`undefined`) and no
items; concrete records below are built by overriding its fields. -/
def emptyQuotation : QuotationData :=
  ⟨.undef, .undef, .undef, .undef, .undef, .undef, .undef, .undef, .undef,
   .undef, .undef, .undef, .undef, .undef, .undef, .undef, .undef, .undef, []⟩

/-- An item record with every field absent (`undefined`). -/
def emptyItem : ItemData := ⟨.undef, .undef, .undef, .undef, .undef, .undef, .undef⟩

/-- The `date` field of the produced context:
`created_at ? new Date(created_at).toLocaleDateString(...) : new Date().toLocaleDateString(...)`.
The wall-clock/locale rendering is kept symbolic. -/
inductive DateVal where
  | fromCreatedAt (v : JSVal)
  | localeNow
deriving DecidableEq, Repr

/-- The `validUntil` field: the stored value when truthy, otherwise the
locale rendering of now + 15 days (kept symbolic). -/
inductive ValidUntilVal where
  | fromField (v : JSVal)
  | plus15Now
deriving DecidableEq, Repr

/-- One produced item row of the rendering context. -/
structure ItemRow where
  no : Nat
  description : JSVal
  jobType : JSVal
  quantity : JSNum
  duration : List Char
  rate : List Char
  rental : List Char
  mobDemob : List Char
  riskUsage : List Char
deriving DecidableEq, Repr

/-- The `quotation` block of the produced context. -/
structure QuotationBlock where
  number : JSVal
  date : DateVal
  machineType : JSVal
  duration : List Char
  validUntil : ValidUntilVal
  paymentTerms : List Char
  taxRate : ℚ
deriving DecidableEq, Repr

/-- The `totals` block of the produced context (all currency-formatted). -/
structure TotalsBlock where
  subtotal : List Char
  tax : List Char
  total : List Char
  workingCost : List Char
  mobDemobCost : List Char
  foodAccomCost : List Char
  riskAdjustment : List Char
  usageLoadFactor : List Char
  riskUsageTotal : List Char
deriving DecidableEq, Repr

/-- The rendering context produced by `mapQuotationToTemplateData`. -/
structure TemplateData where
  company : JSVal
  client : JSVal
  quotation : QuotationBlock
  taxRate : ℚ
  items : List ItemRow
  totals : TotalsBlock
deriving DecidableEq, Repr

/-- Index-carrying list map (`items.map((item, idx) => ...)`). -/
def mapRowsAux (mk : Nat → ItemData → ItemRow) : Nat → List ItemData → List ItemRow
  | _, [] => []
  | i, x :: xs => mk i x :: mapRowsAux mk (i + 1) xs

/-- The effective duration in days:
`numberOrZero(quotationData.number_of_days) || 1`. -/
def durationDaysOf (q : QuotationData) : JSNum :=
  jsOrNum (numberOrZero q.number_of_days) (.fin 1)

/-- `riskUsageTotalCalculated = riskAdjustmentCalculated + usageLoadFactorCalculated`. -/
def riskUsageTotalOf (q : QuotationData) : JSNum :=
  (numberOrZero q.risk_adjustment).add (numberOrZero q.usage_load_factor)

/-- One mapped equipment row (`items.map` body in `mapQuotationToTemplateData`). -/
def mkMappedRow (q : QuotationData) (idx : Nat) (item : ItemData) : ItemRow :=
  let durationDays := durationDaysOf q
  let qty := numberOrZero (jsOr (jsOr item.quantity item.qty) (.num (.fin 1)))
  let baseRate :=
    numberOrZero (jsOr (jsOr (jsOr item.rate item.base_rate) item.unit_price) (.num (.fin 0)))
  let rental := (qty.mul baseRate).mul durationDays
  { no := idx + 1
    description := jsOr (jsOr item.description item.equipment_name) (.str "Item".toList)
    jobType := jsOr q.order_type (.str ['-'])
    quantity := qty
    duration :=
      jsNumToStr durationDays ++ ' ' ::
        (if durationDays = .fin 1 then "day".toList else "days".toList)
    rate := toFixed2 baseRate
    rental := toFixed2 rental
    mobDemob := toFixed2 (numberOrZero q.mob_demob_cost)
    riskUsage := toFixed2 (riskUsageTotalOf q) }

/-- The placeholder row pushed when the record has zero line items
(the `if (items.length === 0)` branch). -/
def placeholderRow (q : QuotationData) : ItemRow :=
  let durationDays := durationDaysOf q
  let fallbackRate := numberOrZero (jsOr (jsOr q.base_rate q.rate) (.num (.fin 0)))
  let fallbackQty : JSNum := .fin 1
  let calculatedRental := (fallbackRate.mul fallbackQty).mul durationDays
  { no := 1
    description := jsOr q.machine_type (.str "Equipment".toList)
    jobType := jsOr q.order_type (.str ['-'])
    quantity := fallbackQty
    duration := jsNumToStr durationDays ++ ' ' :: "day".toList
    rate := toFixed2 fallbackRate
    rental := toFixed2 calculatedRental
    mobDemob := toFixed2 (numberOrZero q.mob_demob_cost)
    riskUsage := toFixed2 (riskUsageTotalOf q) }

/-- `mapQuotationToTemplateData` from the preview routes. -/
def mapQuotationToTemplateData (q : QuotationData) : TemplateData :=
  let gstRate : ℚ := 18
  let riskAdjustmentCalculated := numberOrZero q.risk_adjustment
  let usageLoadFactorCalculated := numberOrZero q.usage_load_factor
  let riskUsageTotalCalculated := riskAdjustmentCalculated.add usageLoadFactorCalculated
  let durationDays := durationDaysOf q
  let mapped := mapRowsAux (mkMappedRow q) 0 q.items
  let items := if mapped.length = 0 then [placeholderRow q] else mapped
  { company := q.company
    client := q.customer
    quotation :=
      { number := q.quotation_number
        date := if q.created_at.truthy then .fromCreatedAt q.created_at else .localeNow
        machineType := q.machine_type
        duration := jsNumToStr durationDays ++ ' ' :: "days".toList
        validUntil := if q.valid_until.truthy then .fromField q.valid_until else .plus15Now
        paymentTerms := "50% advance, balance on completion".toList
        taxRate := gstRate }
    taxRate := gstRate
    items := items
    totals :=
      { subtotal := formatCurrency (jsOr q.total_rent (.num (.fin 0)))
        tax := formatCurrency (jsOr q.gst_amount (.num (.fin 0)))
        total := formatCurrency (jsOr q.total_cost (.num (.fin 0)))
        workingCost := formatCurrency (jsOr q.working_cost (.num (.fin 0)))
        mobDemobCost := formatCurrency (jsOr q.mob_demob_cost (.num (.fin 0)))
        foodAccomCost := formatCurrency (jsOr q.food_accom_cost (.num (.fin 0)))
        riskAdjustment := formatCurrency (.num riskAdjustmentCalculated)
        usageLoadFactor := formatCurrency (.num usageLoadFactorCalculated)
        riskUsageTotal := formatCurrency (.num riskUsageTotalCalculated) } }

/-! ## JSON values, `JSON.stringify` and a `JSON.parse` validity model -/

mutual
/-- JSON value (numbers restricted to integers, which is what the stored
template payloads contain; the validator below accepts the full JSON
number grammar). -/
inductive Json where
  | null
  | bool (b : Bool)
  | num (n : Int)
  | str (s : List Char)
  | arr (xs : JsonList)
  | obj (xs : JsonObj)

/-- List of JSON values (array elements). -/
inductive JsonList where
  | nil
  | cons (hd : Json) (tl : JsonList)

/-- Ordered key/value members of a JSON object. -/
inductive JsonObj where
  | nil
  | cons (k : List Char) (v : Json) (tl : JsonObj)
end

/-- Lower-case hex digit character. -/
def hexChar (n : Nat) : Char := Char.ofNat (if n < 10 then 48 + n else 87 + n)

/-- `JSON.stringify` escaping of one string character. -/
def escChar (c : Char) : List Char :=
  if c = '"' then ['\\', '"']
  else if c = '\\' then ['\\', '\\']
  else if c = '\n' then ['\\', 'n']
  else if c = '\r' then ['\\', 'r']
  else if c = '\t' then ['\\', 't']
  else if c = '\x08' then ['\\', 'b']
  else if c = '\x0c' then ['\\', 'f']
  else if c.toNat < 32 then ['\\', 'u', '0', '0', hexChar (c.toNat / 16), hexChar (c.toNat % 16)]
  else [c]

/-- `JSON.stringify` escaping of a string body. -/
def escChars (s : List Char) : List Char := (s.map escChar).flatten

mutual
/-- `JSON.stringify` (no indentation). -/
def sChars : Json → List Char
  | .null => "null".toList
  | .bool true => "true".toList
  | .bool false => "false".toList
  | .num n => intChars n
  | .str s => '"' :: escChars s ++ ['"']
  | .arr xs => '[' :: sArrBody xs ++ [']']
  | .obj xs => '{' :: sObjBody xs ++ ['}']

/-- Serialised array elements (no brackets). -/
def sArrBody : JsonList → List Char
  | .nil => []
  | .cons x tl => sChars x ++ sArrTail tl

/-- Serialised `,`-led continuation of array elements. -/
def sArrTail : JsonList → List Char
  | .nil => []
  | .cons x tl => ',' :: (sChars x ++ sArrTail tl)

/-- Serialised object members (no braces). -/
def sObjBody : JsonObj → List Char
  | .nil => []
  | .cons k v tl => '"' :: escChars k ++ '"' :: ':' :: (sChars v ++ sObjTail tl)

/-- Serialised `,`-led continuation of object members. -/
def sObjTail : JsonObj → List Char
  | .nil => []
  | .cons k v tl => ',' :: ('"' :: escChars k ++ '"' :: ':' :: (sChars v ++ sObjTail tl))
end

/-- Decimal digit test on code points (equivalent to `Char.isDigit`,
stated numerically for arithmetic reasoning). -/
def isDigitChar (c : Char) : Bool := 48 ≤ c.toNat ∧ c.toNat ≤ 57

/-- Hex digit test on code points. -/
def isHexDigitChar (c : Char) : Bool :=
  (48 ≤ c.toNat ∧ c.toNat ≤ 57) ∨ (97 ≤ c.toNat ∧ c.toNat ≤ 102) ∨
    (65 ≤ c.toNat ∧ c.toNat ≤ 70)

/-- JSON insignificant whitespace (space, tab, line feed, carriage return). -/
def jsonWs (c : Char) : Bool :=
  c.toNat = 32 ∨ c.toNat = 9 ∨ c.toNat = 10 ∨ c.toNat = 13

/-- Skip insignificant whitespace. -/
def skipWs (l : List Char) : List Char := l.dropWhile jsonWs

/-- Expect a literal character sequence. -/
def dropLit : List Char → List Char → Option (List Char)
  | [], l => some l
  | _ :: _, [] => none
  | c :: cs, d :: ds => if c = d then dropLit cs ds else none

/-- Consume a JSON string body after the opening quote. -/
def chompStrBody : List Char → Option (List Char)
  | [] => none
  | c :: r =>
    if c = '"' then some r
    else if c = '\\' then
      match r with
      | [] => none
      | e :: r2 =>
        if e = 'u' then
          match r2 with
          | h1 :: h2 :: h3 :: h4 :: r3 =>
            if isHexDigitChar h1 && isHexDigitChar h2 && isHexDigitChar h3 && isHexDigitChar h4
            then chompStrBody r3 else none
          | _ => none
        else if e = '"' || e = '\\' || e = '/' || e = 'b' || e = 'f' ||
            e = 'n' || e = 'r' || e = 't'
        then chompStrBody r2
        else none
    else if c.toNat < 32 then none
    else chompStrBody r

/-- Consume the required digits of an exponent after `e`/`E` and an
optional sign. -/
def chompExpTail (r : List Char) : Option (List Char) :=
  let r1 := match r with
    | '+' :: r2 => r2
    | '-' :: r2 => r2
    | _ => r
  match r1 with
  | d :: r2 => if isDigitChar d then some (r2.dropWhile isDigitChar) else none
  | [] => none

/-- Consume an optional exponent. -/
def chompExpOpt : List Char → Option (List Char)
  | [] => some []
  | c :: r => if c = 'e' ∨ c = 'E' then chompExpTail r else some (c :: r)

/-- Consume an optional fraction (`.` followed by one or more digits). -/
def chompFracOpt : List Char → Option (List Char)
  | [] => some []
  | c :: r =>
    if c = '.' then
      match r with
      | [] => none
      | d :: r2 => if isDigitChar d then some (r2.dropWhile isDigitChar) else none
    else some (c :: r)

/-- Consume the optional fraction and exponent of a JSON number. -/
def chompFracExp (l : List Char) : Option (List Char) :=
  match chompFracOpt l with
  | none => none
  | some t => chompExpOpt t

/-- Consume the integer part of a JSON number (no leading zeros). -/
def chompIntPart : List Char → Option (List Char)
  | [] => none
  | c :: r =>
    if c = '0' then chompFracExp r
    else if isDigitChar c then chompFracExp (r.dropWhile isDigitChar)
    else none

/-- Consume one JSON number (optional minus sign, integer part,
fraction, exponent). -/
def chompNumber : List Char → Option (List Char)
  | [] => none
  | c :: r => if c = '-' then chompIntPart r else chompIntPart (c :: r)

mutual
/-- Fueled consumption of one JSON value (no leading whitespace). -/
def chompVal : Nat → List Char → Option (List Char)
  | 0, _ => none
  | f + 1, l =>
    match l with
    | [] => none
    | c :: r =>
      if c = '"' then chompStrBody r
      else if c = '{' then chompObjOpen f (skipWs r)
      else if c = '[' then chompArrOpen f (skipWs r)
      else if c = 't' then dropLit ['r', 'u', 'e'] r
      else if c = 'f' then dropLit ['a', 'l', 's', 'e'] r
      else if c = 'n' then dropLit ['u', 'l', 'l'] r
      else if c = '-' ∨ isDigitChar c then chompNumber (c :: r)
      else none

/-- After `[` and whitespace: a closing bracket or the first element. -/
def chompArrOpen : Nat → List Char → Option (List Char)
  | 0, _ => none
  | _ + 1, [] => none
  | f + 1, c :: r =>
    if c = ']' then some r
    else
      match chompVal f (c :: r) with
      | none => none
      | some r2 => chompArrSep f (skipWs r2)

/-- After an array element and whitespace: `,` and another element, or `]`. -/
def chompArrSep : Nat → List Char → Option (List Char)
  | 0, _ => none
  | _ + 1, [] => none
  | f + 1, c :: r =>
    if c = ']' then some r
    else if c = ',' then
      match chompVal f (skipWs r) with
      | none => none
      | some r2 => chompArrSep f (skipWs r2)
    else none

/-- After `{` and whitespace: a closing brace or the first member. -/
def chompObjOpen : Nat → List Char → Option (List Char)
  | 0, _ => none
  | _ + 1, [] => none
  | f + 1, c :: r =>
    if c = '}' then some r
    else chompMember f (c :: r)

/-- One `"key": value` member. -/
def chompMember : Nat → List Char → Option (List Char)
  | 0, _ => none
  | _ + 1, [] => none
  | f + 1, c :: r =>
    if c = '"' then
      match chompStrBody r with
      | none => none
      | some r1 =>
        match skipWs r1 with
        | ':' :: r2 =>
          match chompVal f (skipWs r2) with
          | none => none
          | some r3 => chompObjSep f (skipWs r3)
        | _ => none
    else none

/-- After an object member and whitespace: `,` and another member, or `}`. -/
def chompObjSep : Nat → List Char → Option (List Char)
  | 0, _ => none
  | _ + 1, [] => none
  | f + 1, c :: r =>
    if c = '}' then some r
    else if c = ',' then chompMember f (skipWs r)
    else none
end

/-- Does `JSON.parse` accept this text?  The fuel `4 * length + 4` strictly
dominates the number of mutual parser steps (each step either consumes a
character or is one of at most two bracket-opening indirections per
consumed character). -/
def jsonValid (l : List Char) : Bool :=
  match chompVal (4 * l.length + 4) (skipWs l) with
  | some r => (skipWs r).isEmpty
  | none => false

/-! ## Template repair (`fixColumn` and the repair endpoint) -/

/-- A raw stored column value as seen by the repair endpoint: SQL `NULL`,
an already-decoded object or array (JS `typeof raw === 'object'`), a
non-string scalar, or a string. -/
inductive RawVal where
  | nullv
  | objv (o : JsonObj)
  | arrv (l : JsonList)
  | boolv (b : Bool)
  | numv (n : Int)
  | strv (s : List Char)

/-- `trimmed.replace(/\\"/g, '"')`: left-to-right replacement of every
backslash-quote pair by a quote. -/
def unescQuotes : List Char → List Char
  | [] => []
  | [c] => [c]
  | a :: b :: r =>
    if a = '\\' ∧ b = '"' then '"' :: unescQuotes r
    else a :: unescQuotes (b :: r)

/-- Do the first two characters equal `a` then `b`
(JS `startsWith` on a two-character needle)? -/
def headIs2 (a b : Char) : List Char → Bool
  | x :: y :: _ => x = a ∧ y = b
  | _ => false

/-- Do the last two characters equal `a` then `b`
(JS `endsWith` on a two-character needle)? -/
def lastIs2 (a b : Char) (l : List Char) : Bool := headIs2 b a l.reverse

/-- The `[]` fallback for the `elements` column. -/
def emptyArrJson : Json := .arr .nil

/-- The `{}` fallback for the `layout`, `settings` and `branding` columns. -/
def emptyObjJson : Json := .obj .nil

/-- `fixColumn` from the repair endpoint: normalizes one stored column
value to well-formed JSON text, unwrapping double-stringified payloads and
falling back to the serialized empty container when unrecoverable. -/
def fixColumn (raw : RawVal) (fb : Json) : List Char :=
  match raw with
  | .nullv => sChars fb
  | .objv o => sChars (.obj o)
  | .arrv l => sChars (.arr l)
  | .boolv _ => sChars fb
  | .numv _ => sChars fb
  | .strv s =>
    let trimmed := jsTrimChars s
    if trimmed = [] then sChars fb
    else if trimmed = "[object Object]".toList then sChars fb
    else if (headIs2 '"' '{' trimmed && lastIs2 '}' '"' trimmed) ||
        (headIs2 '"' '[' trimmed && lastIs2 ']' '"' trimmed) then
      let unwrapped := unescQuotes ((trimmed.drop 1).dropLast)
      if jsonValid unwrapped then unwrapped else sChars fb
    else if jsonValid trimmed then trimmed else sChars fb

/-- One stored `enhanced_templates` row (id and the four JSON columns). -/
structure TemplateRow where
  id : List Char
  elements : RawVal
  layout : RawVal
  settings : RawVal
  branding : RawVal

/-- The per-column `mutated` flags of the repair report. -/
structure MutatedFlags where
  elements : Bool
  layout : Bool
  settings : Bool
  branding : Bool

/-- One row of the repair report. -/
structure RowReport where
  id : List Char
  mutated : MutatedFlags
  changed : Bool

/-- `fixedX !== row.X`: the strict-inequality test between the produced
string and the raw stored value. -/
def colChanged (raw : RawVal) (fixed : List Char) : Bool :=
  match raw with
  | .strv s => if s = fixed then false else true
  | _ => true

/-- Repair of one row: the four fixed columns (written back whenever any
of them changed; an unchanged column is already the identical string) and
the report entry. -/
def repairRow (row : TemplateRow) : TemplateRow × RowReport :=
  let fixedElements := fixColumn row.elements emptyArrJson
  let fixedLayout := fixColumn row.layout emptyObjJson
  let fixedSettings := fixColumn row.settings emptyObjJson
  let fixedBranding := fixColumn row.branding emptyObjJson
  let mutated : MutatedFlags :=
    ⟨colChanged row.elements fixedElements, colChanged row.layout fixedLayout,
      colChanged row.settings fixedSettings, colChanged row.branding fixedBranding⟩
  let any := mutated.elements || mutated.layout || mutated.settings || mutated.branding
  (⟨row.id, .strv fixedElements, .strv fixedLayout, .strv fixedSettings, .strv fixedBranding⟩,
    ⟨row.id, mutated, any⟩)

/-- The repair endpoint: scan every stored row, fix the four columns,
write back changed rows, and return the per-row report. -/
def repairAll (rows : List TemplateRow) : List TemplateRow × List RowReport :=
  (rows.map (fun r => (repairRow r).1), rows.map (fun r => (repairRow r).2))

/-! ## Template resolution (preview routes) -/

/-- One element of a template, reduced to its dispatch type (the content
payloads are not consulted by the resolution logic verified here). -/
structure ElementModel where
  etype : List Char
deriving DecidableEq, Repr

/-- A template as held by the template builder. -/
structure TemplateModel where
  id : List Char
  name : List Char
  description : List Char
  theme : List Char
  isDefault : Bool
  isActive : Bool
  elements : List ElementModel
deriving DecidableEq, Repr

/-- Modelled from the spec: `EnhancedTemplateBuilder.createTemplate`
(the builder service file is not part of the sources at hand; per the
spec, templates are created via the builder API with the given metadata
and an empty ordered element sequence; the id is assigned by the builder). -/
def createTemplateModel (id name description theme : List Char)
    (isDefault isActive : Bool) : TemplateModel :=
  ⟨id, name, description, theme, isDefault, isActive, []⟩

/-- Modelled from the spec: `EnhancedTemplateBuilder.addElement` appends
one element of the given type to the template's ordered element sequence
(`elements`: an ordered sequence; insertion order is the only order). -/
def TemplateModel.addElementModel (t : TemplateModel) (etype : List Char) : TemplateModel :=
  { t with elements := t.elements ++ [⟨etype⟩] }

/-- `createDefaultQuotationTemplate` from the preview routes: builds the
built-in fallback template via the builder's fluent API (header, company
info, client info, quotation info, items table, totals, terms, signature). -/
def createDefaultQuotationTemplate : TemplateModel :=
  let t := createTemplateModel "default".toList "ASP Cranes Default Template".toList
    "Professional quotation template for ASP Cranes".toList "PROFESSIONAL".toList true true
  ((((((((t.addElementModel "header".toList).addElementModel
    "company_info".toList).addElementModel
    "client_info".toList).addElementModel
    "quotation_info".toList).addElementModel
    "items_table".toList).addElementModel
    "totals".toList).addElementModel
    "terms".toList).addElementModel
    "signature".toList)

/-- One row of `enhanced_templates` as consulted by the resolution queries. -/
structure StoreRow where
  id : List Char
  is_default : Bool
  is_active : Bool
  updated_at : Nat
deriving DecidableEq, Repr

/-- The template store: unreachable, or a list of rows. -/
inductive StoreState where
  | unreachable
  | rows (rs : List StoreRow)
deriving DecidableEq, Repr

/-- `SELECT id FROM enhanced_templates WHERE is_default = true AND
is_active = true ORDER BY updated_at DESC LIMIT 1`. -/
def pickDefault (rs : List StoreRow) : Option StoreRow :=
  (rs.filter (fun r => r.is_default && r.is_active)).foldl
    (fun acc r =>
      match acc with
      | none => some r
      | some b => if b.updated_at < r.updated_at then some r else some b)
    none

/-- `getDefaultTemplate` from the preview routes: load the most recent
active default template; on an empty result, a load failure or an
unreachable store, fall back to `createDefaultQuotationTemplate`.
(`loadTemplate` of the builder service is abstracted as the `load`
function, since its file is not among the sources at hand.) -/
def getDefaultTemplate (load : List Char → Option TemplateModel)
    (store : StoreState) : TemplateModel :=
  match store with
  | .unreachable => createDefaultQuotationTemplate
  | .rows rs =>
    match pickDefault rs with
    | none => createDefaultQuotationTemplate
    | some r =>
      match load r.id with
      | some t => t
      | none => createDefaultQuotationTemplate

/-- Outcome of the template-selection step of the preview/iframe routes. -/
inductive PreviewOutcome where
  | notFound404
  | ok (t : TemplateModel)
deriving DecidableEq, Repr

/-- The explicit-id branch shared verbatim by `GET /:id/preview` and
`GET /:id/preview/iframe`: existence check in the store, load, and the
id-mismatch guard; every failure is answered with a 404 response. -/
def resolveExplicitTemplate (rs : List StoreRow)
    (load : List Char → Option TemplateModel) (tid : List Char) : PreviewOutcome :=
  if (rs.filter (fun r => r.id = tid)).isEmpty then .notFound404
  else
    match load tid with
    | none => .notFound404
    | some t => if t.id ≠ tid then .notFound404 else .ok t

/-- The full template-selection step of the preview/iframe routes: an
explicit `templateId` query parameter selects the explicit branch (where
a store failure is also caught and answered with 404); otherwise the
default-template chain runs. -/
def selectPreviewTemplate (store : StoreState)
    (load : List Char → Option TemplateModel)
    (templateId : Option (List Char)) : PreviewOutcome :=
  match templateId with
  | some tid =>
    match store with
    | .unreachable => .notFound404
    | .rows rs => resolveExplicitTemplate rs load tid
  | none => .ok (getDefaultTemplate load store)

/-! ## Iframe preview cache validator (ETag) -/

/-- UTF-8 encoding of one character. -/
def utf8Char (c : Char) : List Nat :=
  let n := c.toNat
  if n < 128 then [n]
  else if n < 2048 then [192 + n / 64, 128 + n % 64]
  else if n < 65536 then [224 + n / 4096, 128 + n / 64 % 64, 128 + n % 64]
  else [240 + n / 262144, 128 + n / 4096 % 64, 128 + n / 64 % 64, 128 + n % 64]

/-- `Buffer.from(str)`: UTF-8 bytes of a string. -/
def utf8Encode (l : List Char) : List Nat := (l.map utf8Char).flatten

/-- The base64 alphabet. -/
def b64Char (n : Nat) : Char :=
  "ABCDEFGHIJKLMNOPQRSTUVWXYZabcdefghijklmnopqrstuvwxyz0123456789+/".toList.getD n 'A'

/-- Standard base64 encoding with padding (`buf.toString('base64')`). -/
def b64Encode : List Nat → List Char
  | [] => []
  | [a] => [b64Char (a / 4), b64Char (a % 4 * 16), '=', '=']
  | [a, b] => [b64Char (a / 4), b64Char (a % 4 * 16 + b / 16), b64Char (b % 16 * 4), '=']
  | a :: b :: c :: rest =>
    b64Char (a / 4) :: b64Char (a % 4 * 16 + b / 16) ::
      b64Char (b % 16 * 4 + c / 64) :: b64Char (c % 64) :: b64Encode rest

/-- The template fields consulted by the iframe ETag seed. -/
structure EtagSource where
  id : JSVal
  updated_at : JSVal
  updatedAt : JSVal
deriving DecidableEq, Repr

/-- The ETag seed:
`${template.id || 'default'}:${template.updated_at || template.updatedAt || 'na'}:${meta.degraded ? 'D' : 'OK'}`. -/
def etagSeedOf (t : EtagSource) (degraded : Bool) : List Char :=
  jsDisplay (jsOr t.id (.str "default".toList)) ++ ':' ::
    (jsDisplay (jsOr (jsOr t.updated_at t.updatedAt) (.str "na".toList)) ++ ':' ::
      (if degraded then ['D'] else ['O', 'K']))

/-- The weak ETag:
`'W/"' + Buffer.from(etagSeed).toString('base64').substring(0,32) + '"'`. -/
def etagOf (t : EtagSource) (degraded : Bool) : List Char :=
  'W' :: '/' :: '"' :: ((b64Encode (utf8Encode (etagSeedOf t degraded))).take 32 ++ ['"'])

/-- The iframe response after the ETag headers are set. -/
structure IframeCacheResponse where
  status : Nat
  body : List Char
deriving DecidableEq, Repr

/-- `if (req.headers['if-none-match'] === etag) return res.status(304).end();
res.send(augmentedHtml);`. -/
def iframeCacheStep (etag : List Char) (ifNoneMatch : Option (List Char))
    (html : List Char) : IframeCacheResponse :=
  if ifNoneMatch = some etag then ⟨304, []⟩ else ⟨200, html⟩

/-! ## PDF download route and rasterizer fallback -/

/-- A rest-of-input that cannot extend a just-consumed number: empty, or
starting with a character that is neither a digit nor `.`/`e`/`E`. -/
def NumStop : List Char → Prop
  | [] => True
  | c :: _ => isDigitChar c = false ∧ c ≠ '.' ∧ c ≠ 'e' ∧ c ≠ 'E'

mutual
/-- Parser fuel sufficient for one serialised value. -/
def jfuel : Json → Nat
  | .null => 1
  | .bool _ => 1
  | .num _ => 1
  | .str _ => 1
  | .arr xs => 2 + lfuel xs
  | .obj xs => 2 + ofuel xs

/-- Parser fuel sufficient for serialised array elements. -/
def lfuel : JsonList → Nat
  | .nil => 1
  | .cons x tl => 2 + jfuel x + lfuel tl

/-- Parser fuel sufficient for serialised object members. -/
def ofuel : JsonObj → Nat
  | .nil => 1
  | .cons _ v tl => 3 + jfuel v + ofuel tl
end

end AspCranes

namespace AspCranes

/-! ## Digit and character lemmas -/

theorem isDigitChar_digitChar {k : Nat} (h : k < 10) : isDigitChar (digitChar k) = true := by
  interval_cases k <;> decide

theorem digitChar_ne_zero {k : Nat} (h1 : 1 ≤ k) (h2 : k < 10) : digitChar k ≠ '0' := by
  interval_cases k <;> decide

/-- The decimal rendering of a natural number: nonempty, every character a
digit, and no leading zero for positive numbers. -/
theorem natCharsAux_spec (fuel : Nat) :
    ∀ n, n < fuel →
      ∃ d ds, natCharsAux fuel n = d :: ds ∧ isDigitChar d = true ∧
        (1 ≤ n → d ≠ '0') ∧ ∀ c ∈ ds, isDigitChar c = true := by
  induction fuel with
  | zero => intro n hn; omega
  | succ f ih =>
    intro n hn
    by_cases h10 : n < 10
    · exact ⟨digitChar n, [], by simp [natCharsAux, h10], isDigitChar_digitChar h10,
        fun h1 => digitChar_ne_zero h1 h10, by simp⟩
    · have hlt : n / 10 < n := Nat.div_lt_self (by omega) (by omega)
      obtain ⟨d, ds, heq, hd, hz, hds⟩ := ih (n / 10) (by omega)
      refine ⟨d, ds ++ [digitChar (n % 10)], ?_, hd, fun _ => hz ?_, ?_⟩
      · simp [natCharsAux, h10, heq]
      · omega
      · intro c hc
        rcases List.mem_append.mp hc with h | h
        · exact hds c h
        · simp only [List.mem_singleton] at h
          subst h
          exact isDigitChar_digitChar (Nat.mod_lt _ (by omega))

theorem natChars_spec (n : Nat) :
    ∃ d ds, natChars n = d :: ds ∧ isDigitChar d = true ∧
      (1 ≤ n → d ≠ '0') ∧ ∀ c ∈ ds, isDigitChar c = true :=
  natCharsAux_spec (n + 1) n (by omega)

/-! ## Number consumption lemmas -/

theorem numStop_dropWhile {r : List Char} (hr : NumStop r) :
    r.dropWhile isDigitChar = r := by
  cases r with
  | nil => rfl
  | cons c t => simp [List.dropWhile_cons, hr.1]

theorem dropWhile_digits_app {ds r : List Char}
    (hds : ∀ c ∈ ds, isDigitChar c = true) (hr : NumStop r) :
    (ds ++ r).dropWhile isDigitChar = r := by
  induction ds with
  | nil => simpa using numStop_dropWhile hr
  | cons d t ih =>
    simp only [List.cons_append, List.dropWhile_cons, hds d (by simp), if_true]
    exact ih fun c hc => hds c (by simp [hc])

theorem chompExpOpt_numStop {r : List Char} (hr : NumStop r) : chompExpOpt r = some r := by
  cases r with
  | nil => rfl
  | cons c t => simp [chompExpOpt, hr.2.2.1, hr.2.2.2]

theorem chompFracOpt_numStop {r : List Char} (hr : NumStop r) : chompFracOpt r = some r := by
  cases r with
  | nil => rfl
  | cons c t => simp [chompFracOpt, hr.2.1]

theorem chompFracExp_numStop {r : List Char} (hr : NumStop r) : chompFracExp r = some r := by
  unfold chompFracExp
  rw [chompFracOpt_numStop hr]
  exact chompExpOpt_numStop hr

theorem chompIntPart_nat (a : Nat) {rest : List Char} (hr : NumStop rest) :
    chompIntPart (natChars a ++ rest) = some rest := by
  by_cases ha : a = 0
  · subst ha
    rw [show natChars 0 = ['0'] from rfl]
    simpa [chompIntPart] using chompFracExp_numStop hr
  · obtain ⟨d, ds, heq, hd, hz, hds⟩ := natChars_spec a
    rw [heq]
    simp only [List.cons_append, chompIntPart, hz (by omega), if_false, hd, if_true]
    rw [dropWhile_digits_app hds hr]
    exact chompFracExp_numStop hr

theorem chompNumber_int (n : Int) {rest : List Char} (hr : NumStop rest) :
    chompNumber (intChars n ++ rest) = some rest := by
  unfold intChars
  split_ifs with hneg
  · simp only [List.cons_append, chompNumber, if_pos rfl]
    exact chompIntPart_nat _ hr
  · have hmain : chompIntPart (natChars n.natAbs ++ rest) = some rest := chompIntPart_nat n.natAbs hr
    obtain ⟨d, ds, heq, hd, hz, hds⟩ := natChars_spec n.natAbs
    have hd_ne : d ≠ '-' := by
      intro h
      subst h
      exact absurd hd (by decide)
    rw [heq] at hmain ⊢
    simpa [chompNumber, hd_ne] using hmain

/-! ## String consumption lemma -/

theorem isHexDigitChar_hexChar {n : Nat} (h : n < 16) : isHexDigitChar (hexChar n) = true := by
  interval_cases n <;> decide

theorem chompStrBody_esc (s : List Char) (rest : List Char) :
    chompStrBody (escChars s ++ '"' :: rest) = some rest := by
  induction s with
  | nil =>
    show chompStrBody (([] : List Char) ++ '"' :: rest) = some rest
    rw [List.nil_append, chompStrBody.eq_def]
    simp
  | cons c cs ih =>
    have hesc : escChars (c :: cs) = escChar c ++ escChars cs := by simp [escChars]
    rw [hesc, List.append_assoc]
    unfold escChar
    split_ifs with h1 h2 h3 h4 h5 h6 h7 h8
    · rw [List.cons_append, List.cons_append, chompStrBody.eq_def]
      simp
      exact ih
    · rw [List.cons_append, List.cons_append, chompStrBody.eq_def]
      simp
      exact ih
    · rw [List.cons_append, List.cons_append, chompStrBody.eq_def]
      simp
      exact ih
    · rw [List.cons_append, List.cons_append, chompStrBody.eq_def]
      simp
      exact ih
    · rw [List.cons_append, List.cons_append, chompStrBody.eq_def]
      simp
      exact ih
    · rw [List.cons_append, List.cons_append, chompStrBody.eq_def]
      simp
      exact ih
    · rw [List.cons_append, List.cons_append, chompStrBody.eq_def]
      simp
      exact ih
    · have hx : isHexDigitChar (hexChar (c.toNat / 16)) = true :=
        isHexDigitChar_hexChar (by omega)
      have hy : isHexDigitChar (hexChar (c.toNat % 16)) = true :=
        isHexDigitChar_hexChar (Nat.mod_lt _ (by omega))
      simp only [List.cons_append]
      rw [chompStrBody.eq_def]
      simp [hx, hy]
      exact ⟨by decide, ih⟩
    · rw [List.cons_append, chompStrBody.eq_def]
      simp [h1, h2, h8]
      exact ih

/-! ## Serialised-form head shapes and whitespace -/

theorem jsonWs_of_digit {c : Char} (h : isDigitChar c = true) : jsonWs c = false := by
  cases hwc : jsonWs c
  · rfl
  · simp [isDigitChar] at h
    simp [jsonWs] at hwc
    omega

/-- The first character of a serialised JSON value is never whitespace,
a closing bracket, a closing brace or a comma. -/
theorem sChars_head (j : Json) :
    ∃ c r, sChars j = c :: r ∧ jsonWs c = false ∧ c ≠ ']' ∧ c ≠ '}' ∧ c ≠ ',' := by
  cases j with
  | null => exact ⟨'n', _, rfl, by decide, by decide, by decide, by decide⟩
  | bool b =>
    cases b
    · exact ⟨'f', _, rfl, by decide, by decide, by decide, by decide⟩
    · exact ⟨'t', _, rfl, by decide, by decide, by decide, by decide⟩
  | num n =>
    show ∃ c r, intChars n = c :: r ∧ _
    unfold intChars
    split_ifs with hneg
    · exact ⟨'-', _, rfl, by decide, by decide, by decide, by decide⟩
    · obtain ⟨d, ds, heq, hd, _, _⟩ := natChars_spec n.natAbs
      refine ⟨d, ds, heq, jsonWs_of_digit hd, ?_, ?_, ?_⟩ <;>
        (rintro rfl; exact absurd hd (by decide))
  | str s => exact ⟨'"', _, rfl, by decide, by decide, by decide, by decide⟩
  | arr xs => exact ⟨'[', _, rfl, by decide, by decide, by decide, by decide⟩
  | obj xs => exact ⟨'{', _, rfl, by decide, by decide, by decide, by decide⟩

theorem skipWs_cons_of {c : Char} {r : List Char} (h : jsonWs c = false) :
    skipWs (c :: r) = c :: r := by
  simp [skipWs, List.dropWhile_cons, h]

theorem numStop_arrTail (tl : JsonList) (rest : List Char) :
    NumStop (sArrTail tl ++ ']' :: rest) := by
  cases tl with
  | nil => exact ⟨by decide, by decide, by decide, by decide⟩
  | cons x t => exact ⟨by decide, by decide, by decide, by decide⟩

theorem numStop_objTail (tl : JsonObj) (rest : List Char) :
    NumStop (sObjTail tl ++ '}' :: rest) := by
  cases tl with
  | nil => exact ⟨by decide, by decide, by decide, by decide⟩
  | cons k v t => exact ⟨by decide, by decide, by decide, by decide⟩

theorem dropLit_self (lit r : List Char) : dropLit lit (lit ++ r) = some r := by
  induction lit with
  | nil => rfl
  | cons c cs ih =>
    rw [List.cons_append, dropLit.eq_def]
    simp [ih]

/-! ## Soundness: every `JSON.stringify` output is accepted by the validator -/

mutual

/-- The validator consumes exactly the serialised form of a value. -/
theorem soundVal : ∀ (j : Json) (f : Nat) (rest : List Char),
    jfuel j ≤ f → NumStop rest → chompVal f (sChars j ++ rest) = some rest
  | .null, f, rest, hf, _ => by
    have hf1 : 1 ≤ f := hf
    obtain ⟨f', rfl⟩ : ∃ f', f = f' + 1 := ⟨f - 1, by omega⟩
    show chompVal (f' + 1) ('n' :: 'u' :: 'l' :: 'l' :: rest) = some rest
    rw [chompVal.eq_def]
    simp
    exact dropLit_self ['u', 'l', 'l'] rest
  | .bool true, f, rest, hf, _ => by
    have hf1 : 1 ≤ f := hf
    obtain ⟨f', rfl⟩ : ∃ f', f = f' + 1 := ⟨f - 1, by omega⟩
    show chompVal (f' + 1) ('t' :: 'r' :: 'u' :: 'e' :: rest) = some rest
    rw [chompVal.eq_def]
    simp
    exact dropLit_self ['r', 'u', 'e'] rest
  | .bool false, f, rest, hf, _ => by
    have hf1 : 1 ≤ f := hf
    obtain ⟨f', rfl⟩ : ∃ f', f = f' + 1 := ⟨f - 1, by omega⟩
    show chompVal (f' + 1) ('f' :: 'a' :: 'l' :: 's' :: 'e' :: rest) = some rest
    rw [chompVal.eq_def]
    simp
    exact dropLit_self ['a', 'l', 's', 'e'] rest
  | .num n, f, rest, hf, hr => by
    have hf1 : 1 ≤ f := hf
    obtain ⟨f', rfl⟩ : ∃ f', f = f' + 1 := ⟨f - 1, by omega⟩
    show chompVal (f' + 1) (intChars n ++ rest) = some rest
    unfold intChars
    split_ifs with hneg
    · rw [List.cons_append, chompVal.eq_def]
      simp
      rw [chompNumber.eq_def]
      simp
      exact chompIntPart_nat _ hr
    · obtain ⟨d, ds, heq, hd, hz, hds⟩ := natChars_spec n.natAbs
      have f1 : d ≠ '"' := by rintro rfl; exact absurd hd (by decide)
      have f2 : d ≠ '{' := by rintro rfl; exact absurd hd (by decide)
      have f3 : d ≠ '[' := by rintro rfl; exact absurd hd (by decide)
      have f4 : d ≠ 't' := by rintro rfl; exact absurd hd (by decide)
      have f5 : d ≠ 'f' := by rintro rfl; exact absurd hd (by decide)
      have f6 : d ≠ 'n' := by rintro rfl; exact absurd hd (by decide)
      have f7 : d ≠ '-' := by rintro rfl; exact absurd hd (by decide)
      rw [heq, List.cons_append, chompVal.eq_def]
      simp [f1, f2, f3, f4, f5, f6, hd]
      rw [chompNumber.eq_def]
      simp [f7]
      rw [← List.cons_append, ← heq]
      exact chompIntPart_nat _ hr
  | .str s, f, rest, hf, _ => by
    have hf1 : 1 ≤ f := hf
    obtain ⟨f', rfl⟩ : ∃ f', f = f' + 1 := ⟨f - 1, by omega⟩
    show chompVal (f' + 1) (('"' :: (escChars s ++ ['"'])) ++ rest) = some rest
    simp only [List.cons_append, List.append_assoc, List.singleton_append]
    rw [chompVal.eq_def]
    simp
    exact chompStrBody_esc s rest
  | .arr xs, f, rest, hf, _ => by
    have hf1 : 2 + lfuel xs ≤ f := hf
    obtain ⟨f', rfl⟩ : ∃ f', f = f' + 1 := ⟨f - 1, by omega⟩
    show chompVal (f' + 1) (('[' :: (sArrBody xs ++ [']'])) ++ rest) = some rest
    simp only [List.cons_append, List.append_assoc, List.singleton_append]
    rw [chompVal.eq_def]
    simp
    exact soundArrBody xs f' rest (by omega)
  | .obj xs, f, rest, hf, _ => by
    have hf1 : 2 + ofuel xs ≤ f := hf
    obtain ⟨f', rfl⟩ : ∃ f', f = f' + 1 := ⟨f - 1, by omega⟩
    show chompVal (f' + 1) (('{' :: (sObjBody xs ++ ['}'])) ++ rest) = some rest
    simp only [List.cons_append, List.append_assoc, List.singleton_append]
    rw [chompVal.eq_def]
    simp
    exact soundObjBody xs f' rest (by omega)

/-- The validator consumes the serialised elements plus closing bracket. -/
theorem soundArrBody : ∀ (xs : JsonList) (f : Nat) (rest : List Char),
    1 + lfuel xs ≤ f → chompArrOpen f (skipWs (sArrBody xs ++ ']' :: rest)) = some rest
  | .nil, f, rest, hf => by
    have hf1 : 2 ≤ f := by have : 1 + lfuel JsonList.nil ≤ f := hf; simpa [lfuel] using this
    obtain ⟨f', rfl⟩ : ∃ f', f = f' + 1 := ⟨f - 1, by omega⟩
    show chompArrOpen (f' + 1) (skipWs (']' :: rest)) = some rest
    rw [skipWs_cons_of (by decide), chompArrOpen.eq_def]
    simp
  | .cons x tl, f, rest, hf => by
    have hf1 : 1 + (2 + jfuel x + lfuel tl) ≤ f := hf
    obtain ⟨f', rfl⟩ : ∃ f', f = f' + 1 := ⟨f - 1, by omega⟩
    obtain ⟨c, r, heq, hws, hbr, _, _⟩ := sChars_head x
    show chompArrOpen (f' + 1)
      (skipWs ((sChars x ++ sArrTail tl) ++ ']' :: rest)) = some rest
    rw [List.append_assoc, heq, List.cons_append, skipWs_cons_of hws,
      chompArrOpen.eq_def]
    simp only [if_neg hbr]
    rw [← List.cons_append, ← heq,
      soundVal x f' (sArrTail tl ++ ']' :: rest) (by omega) (numStop_arrTail tl rest)]
    exact soundArrTail tl f' rest (by omega)

/-- The validator consumes the comma-led serialised continuation of array
elements plus closing bracket. -/
theorem soundArrTail : ∀ (xs : JsonList) (f : Nat) (rest : List Char),
    1 + lfuel xs ≤ f → chompArrSep f (skipWs (sArrTail xs ++ ']' :: rest)) = some rest
  | .nil, f, rest, hf => by
    have hf1 : 2 ≤ f := by have : 1 + lfuel JsonList.nil ≤ f := hf; simpa [lfuel] using this
    obtain ⟨f', rfl⟩ : ∃ f', f = f' + 1 := ⟨f - 1, by omega⟩
    show chompArrSep (f' + 1) (skipWs (']' :: rest)) = some rest
    rw [skipWs_cons_of (by decide), chompArrSep.eq_def]
    simp
  | .cons x tl, f, rest, hf => by
    have hf1 : 1 + (2 + jfuel x + lfuel tl) ≤ f := hf
    obtain ⟨f', rfl⟩ : ∃ f', f = f' + 1 := ⟨f - 1, by omega⟩
    obtain ⟨c, r, heq, hws, _, _, _⟩ := sChars_head x
    show chompArrSep (f' + 1)
      (skipWs ((',' :: (sChars x ++ sArrTail tl)) ++ ']' :: rest)) = some rest
    rw [List.cons_append, skipWs_cons_of (by decide), chompArrSep.eq_def]
    simp only [List.append_assoc]
    simp
    rw [heq, List.cons_append, skipWs_cons_of hws, ← List.cons_append, ← heq,
      soundVal x f' (sArrTail tl ++ ']' :: rest) (by omega) (numStop_arrTail tl rest)]
    exact soundArrTail tl f' rest (by omega)

/-- The validator consumes the serialised members plus closing brace. -/
theorem soundObjBody : ∀ (xs : JsonObj) (f : Nat) (rest : List Char),
    1 + ofuel xs ≤ f → chompObjOpen f (skipWs (sObjBody xs ++ '}' :: rest)) = some rest
  | .nil, f, rest, hf => by
    have hf1 : 2 ≤ f := by have : 1 + ofuel JsonObj.nil ≤ f := hf; simpa [ofuel] using this
    obtain ⟨f', rfl⟩ : ∃ f', f = f' + 1 := ⟨f - 1, by omega⟩
    show chompObjOpen (f' + 1) (skipWs ('}' :: rest)) = some rest
    rw [skipWs_cons_of (by decide), chompObjOpen.eq_def]
    simp
  | .cons k v tl, f, rest, hf => by
    have hf1 : 1 + (3 + jfuel v + ofuel tl) ≤ f := hf
    obtain ⟨f', rfl⟩ : ∃ f', f = f' + 1 := ⟨f - 1, by omega⟩
    obtain ⟨m, rfl⟩ : ∃ m, f' = m + 1 := ⟨f' - 1, by omega⟩
    obtain ⟨c, r, heq, hws, _, _, _⟩ := sChars_head v
    show chompObjOpen (m + 1 + 1)
      (skipWs ((('"' :: escChars k) ++ '"' :: ':' :: (sChars v ++ sObjTail tl)) ++
        '}' :: rest)) = some rest
    simp only [List.cons_append, List.append_assoc]
    rw [skipWs_cons_of (by decide), chompObjOpen.eq_def]
    simp
    rw [chompMember.eq_def]
    simp
    rw [chompStrBody_esc k]
    simp
    rw [skipWs_cons_of (by decide)]
    simp
    rw [heq, List.cons_append, skipWs_cons_of hws, ← List.cons_append, ← heq,
      soundVal v m (sObjTail tl ++ '}' :: rest) (by omega) (numStop_objTail tl rest)]
    exact soundObjTail tl m rest (by omega)

/-- The validator consumes the comma-led serialised continuation of
object members plus closing brace. -/
theorem soundObjTail : ∀ (xs : JsonObj) (f : Nat) (rest : List Char),
    1 + ofuel xs ≤ f → chompObjSep f (skipWs (sObjTail xs ++ '}' :: rest)) = some rest
  | .nil, f, rest, hf => by
    have hf1 : 2 ≤ f := by have : 1 + ofuel JsonObj.nil ≤ f := hf; simpa [ofuel] using this
    obtain ⟨f', rfl⟩ : ∃ f', f = f' + 1 := ⟨f - 1, by omega⟩
    show chompObjSep (f' + 1) (skipWs ('}' :: rest)) = some rest
    rw [skipWs_cons_of (by decide), chompObjSep.eq_def]
    simp
  | .cons k v tl, f, rest, hf => by
    have hf1 : 1 + (3 + jfuel v + ofuel tl) ≤ f := hf
    obtain ⟨f', rfl⟩ : ∃ f', f = f' + 1 := ⟨f - 1, by omega⟩
    obtain ⟨m, rfl⟩ : ∃ m, f' = m + 1 := ⟨f' - 1, by omega⟩
    obtain ⟨c, r, heq, hws, _, _, _⟩ := sChars_head v
    show chompObjSep (m + 1 + 1)
      (skipWs ((',' :: (('"' :: escChars k) ++ '"' :: ':' :: (sChars v ++ sObjTail tl))) ++
        '}' :: rest)) = some rest
    simp only [List.cons_append, List.append_assoc]
    rw [skipWs_cons_of (by decide), chompObjSep.eq_def]
    simp
    rw [skipWs_cons_of (by decide), chompMember.eq_def]
    simp
    rw [chompStrBody_esc k]
    simp
    rw [skipWs_cons_of (by decide)]
    simp
    rw [heq, List.cons_append, skipWs_cons_of hws, ← List.cons_append, ← heq,
      soundVal v m (sObjTail tl ++ '}' :: rest) (by omega) (numStop_objTail tl rest)]
    exact soundObjTail tl m rest (by omega)

end

/-! ## The fuel of `jsonValid` suffices for serialised values -/

mutual

theorem jfuel_le : ∀ j : Json, jfuel j ≤ 4 * (sChars j).length
  | .null => by decide
  | .bool b => by cases b <;> decide
  | .num n => by
    show (1 : Nat) ≤ 4 * (intChars n).length
    unfold intChars
    split_ifs
    · simp
      omega
    · obtain ⟨d, ds, heq, _, _, _⟩ := natChars_spec n.natAbs
      rw [heq]
      simp
      omega
  | .str s => by
    show (1 : Nat) ≤ 4 * ('"' :: (escChars s ++ ['"'])).length
    simp
    omega
  | .arr xs => by
    have h := lfuel_le_body xs
    show 2 + lfuel xs ≤ 4 * ('[' :: (sArrBody xs ++ [']'])).length
    simp only [List.length_cons, List.length_append, List.length_singleton]
    omega
  | .obj xs => by
    have h := ofuel_le_body xs
    show 2 + ofuel xs ≤ 4 * ('{' :: (sObjBody xs ++ ['}'])).length
    simp only [List.length_cons, List.length_append, List.length_singleton]
    omega

theorem lfuel_le_body : ∀ xs : JsonList, lfuel xs ≤ 4 * (sArrBody xs).length + 4
  | .nil => by decide
  | .cons x tl => by
    have h1 := jfuel_le x
    have h2 := lfuel_le_tail tl
    show 2 + jfuel x + lfuel tl ≤ 4 * (sChars x ++ sArrTail tl).length + 4
    simp only [List.length_append]
    omega

theorem lfuel_le_tail : ∀ xs : JsonList, lfuel xs ≤ 4 * (sArrTail xs).length + 2
  | .nil => by decide
  | .cons x tl => by
    have h1 := jfuel_le x
    have h2 := lfuel_le_tail tl
    show 2 + jfuel x + lfuel tl ≤ 4 * (',' :: (sChars x ++ sArrTail tl)).length + 2
    simp only [List.length_cons, List.length_append]
    omega

theorem ofuel_le_body : ∀ xs : JsonObj, ofuel xs ≤ 4 * (sObjBody xs).length + 4
  | .nil => by decide
  | .cons k v tl => by
    have h1 := jfuel_le v
    have h2 := ofuel_le_tail tl
    show 3 + jfuel v + ofuel tl ≤
      4 * (('"' :: escChars k) ++ '"' :: ':' :: (sChars v ++ sObjTail tl)).length + 4
    simp only [List.length_cons, List.length_append]
    omega

theorem ofuel_le_tail : ∀ xs : JsonObj, ofuel xs ≤ 4 * (sObjTail xs).length + 2
  | .nil => by decide
  | .cons k v tl => by
    have h1 := jfuel_le v
    have h2 := ofuel_le_tail tl
    show 3 + jfuel v + ofuel tl ≤
      4 * (',' :: (('"' :: escChars k) ++ '"' :: ':' :: (sChars v ++ sObjTail tl))).length + 2
    simp only [List.length_cons, List.length_append]
    omega

end

/-- Every `JSON.stringify` output is valid JSON text: `JSON.parse` accepts
the serialised form of every value. -/
theorem jsonValid_sChars (j : Json) : jsonValid (sChars j) = true := by
  obtain ⟨c, r, heq, hws, _, _, _⟩ := sChars_head j
  have hs := soundVal j (4 * (sChars j).length + 4) []
    (by have := jfuel_le j; omega) trivial
  rw [List.append_nil] at hs
  unfold jsonValid
  rw [heq] at hs ⊢
  rw [skipWs_cons_of hws, hs]
  simp [skipWs]

/-! ## Trimming lemmas -/

theorem jsTrim_eq_rdrop (l : List Char) :
    jsTrimChars l = List.rdropWhile jsWsChar (l.dropWhile jsWsChar) := rfl

theorem jsTrim_sandwich {a b : Char} (m : List Char)
    (ha : jsWsChar a = false) (hb : jsWsChar b = false) :
    jsTrimChars (a :: (m ++ [b])) = a :: (m ++ [b]) := by
  unfold jsTrimChars
  rw [List.dropWhile_cons]
  simp only [ha, Bool.false_eq_true, if_false]
  rw [show a :: (m ++ [b]) = (a :: m) ++ [b] from rfl]
  simp only [List.reverse_append, List.reverse_cons, List.reverse_nil, List.nil_append,
    List.singleton_append, List.dropWhile_cons, hb, Bool.false_eq_true, if_false]
  simp

theorem dropWhile_head_false {p : Char → Bool} (l : List Char) :
    ∀ c, (l.dropWhile p).head? = some c → p c = false := by
  induction l with
  | nil => simp
  | cons a t ih =>
    intro c hc
    rw [List.dropWhile_cons] at hc
    by_cases hp : p a
    · exact ih c (by simpa [hp] using hc)
    · simp only [hp, Bool.false_eq_true, if_false, List.head?_cons, Option.some_inj] at hc
      subst hc
      simpa using hp

theorem head?_of_isPre {l₁ l₂ : List Char} {c : Char} (h : l₁ <+: l₂)
    (hc : l₁.head? = some c) : l₂.head? = some c := by
  obtain ⟨w, rfl⟩ := h
  cases l₁ with
  | nil => simp at hc
  | cons a t => simpa using hc

theorem jsTrim_head_false (s : List Char) :
    ∀ c, (jsTrimChars s).head? = some c → jsWsChar c = false := by
  intro c hc
  rw [jsTrim_eq_rdrop] at hc
  exact dropWhile_head_false s c (head?_of_isPre (List.rdropWhile_prefix _ _) hc)

theorem jsTrim_last_false (s : List Char) :
    ∀ c, (jsTrimChars s).getLast? = some c → jsWsChar c = false := by
  intro c hc
  rw [jsTrim_eq_rdrop] at hc
  have hne : List.rdropWhile jsWsChar (s.dropWhile jsWsChar) ≠ [] := by
    intro h
    rw [h] at hc
    simp at hc
  have hlast := List.rdropWhile_last_not jsWsChar (s.dropWhile jsWsChar) hne
  rw [List.getLast?_eq_getLast_of_ne_nil hne, Option.some_inj] at hc
  rw [← hc]
  simpa using hlast

theorem jsTrim_noop (l : List Char)
    (h1 : ∀ c, l.head? = some c → jsWsChar c = false)
    (h2 : ∀ c, l.getLast? = some c → jsWsChar c = false) : jsTrimChars l = l := by
  cases l with
  | nil => rfl
  | cons a m =>
    rw [jsTrim_eq_rdrop, List.dropWhile_cons]
    simp only [h1 a rfl, Bool.false_eq_true, if_false]
    have hne : a :: m ≠ [] := by simp
    rw [← List.dropLast_append_getLast hne]
    exact List.rdropWhile_concat_neg _ _ _
      (by simp [h2 ((a :: m).getLast hne) (List.getLast?_eq_getLast_of_ne_nil hne)])

theorem jsTrim_idem (s : List Char) : jsTrimChars (jsTrimChars s) = jsTrimChars s :=
  jsTrim_noop _ (jsTrim_head_false s) (jsTrim_last_false s)

/-! ## Unescaping lemmas -/

theorem unesc_head {a : Char} (m : List Char) (ha : a ≠ '\\') :
    unescQuotes (a :: m) = a :: unescQuotes m := by
  cases m with
  | nil => rfl
  | cons b t =>
    rw [unescQuotes.eq_def]
    simp [ha]

theorem unesc_last : ∀ (l : List Char) (c : Char), c ≠ '"' →
    ∃ y, unescQuotes (l ++ [c]) = y ++ [c]
  | [], c, _ => ⟨[], rfl⟩
  | [a], c, hc => by
    refine ⟨[a], ?_⟩
    show (if a = '\\' ∧ c = '"' then '"' :: unescQuotes [] else a :: unescQuotes [c]) =
      [a] ++ [c]
    rw [if_neg (fun h => hc h.2)]
    rfl
  | a :: b :: l, c, hc => by
    have hred : unescQuotes ((a :: b :: l) ++ [c]) =
        (if a = '\\' ∧ b = '"' then '"' :: unescQuotes (l ++ [c])
          else a :: unescQuotes (b :: (l ++ [c]))) := rfl
    rw [hred]
    by_cases hab : a = '\\' ∧ b = '"'
    · rw [if_pos hab]
      obtain ⟨y, hy⟩ := unesc_last l c hc
      exact ⟨'"' :: y, by rw [hy]; rfl⟩
    · rw [if_neg hab]
      obtain ⟨y, hy⟩ := unesc_last (b :: l) c hc
      exact ⟨a :: y, by rw [show unescQuotes (b :: (l ++ [c])) =
        unescQuotes ((b :: l) ++ [c]) from rfl, hy]; rfl⟩

/-! ## Stability of `fixColumn` -/

/-- Unfolding of the string branch of `fixColumn`. -/
theorem fixColumn_strv (s : List Char) (fb : Json) :
    fixColumn (.strv s) fb =
      (if jsTrimChars s = [] then sChars fb
        else if jsTrimChars s = "[object Object]".toList then sChars fb
        else if (headIs2 '"' '{' (jsTrimChars s) && lastIs2 '}' '"' (jsTrimChars s)) ||
            (headIs2 '"' '[' (jsTrimChars s) && lastIs2 ']' '"' (jsTrimChars s)) then
          (if jsonValid (unescQuotes (((jsTrimChars s).drop 1).dropLast))
            then unescQuotes (((jsTrimChars s).drop 1).dropLast) else sChars fb)
        else if jsonValid (jsTrimChars s) then jsTrimChars s else sChars fb) := rfl

theorem headIs2_false {p q x : Char} (l : List Char) (hx : x ≠ p) :
    headIs2 p q (x :: l) = false := by
  cases l with
  | nil => rfl
  | cons y t => simp [headIs2, hx]

/-- A nonempty string that starts and ends with non-whitespace characters,
does not start with a quote, and is valid JSON, is kept by `fixColumn`. -/
theorem fixColumn_keeps (u : List Char) (a : Char) (m : List Char) (b : Char)
    (hu : u = a :: (m ++ [b])) (hwa : jsWsChar a = false) (haq : a ≠ '"')
    (hwb : jsWsChar b = false) (hvalid : jsonValid u = true) (fb : Json) :
    fixColumn (.strv u) fb = u := by
  have htrim : jsTrimChars u = u := by rw [hu]; exact jsTrim_sandwich m hwa hwb
  rw [fixColumn_strv, htrim]
  have hne : u ≠ [] := by rw [hu]; simp
  have hoo : u ≠ "[object Object]".toList := by
    intro h
    rw [h] at hvalid
    exact absurd hvalid (by decide)
  have hsh1 : headIs2 '"' '{' u = false := by rw [hu]; exact headIs2_false _ haq
  have hsh2 : headIs2 '"' '[' u = false := by rw [hu]; exact headIs2_false _ haq
  rw [if_neg hne, if_neg hoo]
  simp only [hsh1, hsh2, Bool.false_and, Bool.or_self, Bool.false_eq_true, if_false]
  simp [hvalid]

/-- A trimmed, non-degenerate, non-double-shaped valid string is kept by
`fixColumn`. -/
theorem fixColumn_keeps_of_trim {s : List Char} (t : List Char) (ht : t = jsTrimChars s)
    (h1 : t ≠ []) (h2 : t ≠ "[object Object]".toList)
    (h3 : ((headIs2 '"' '{' t && lastIs2 '}' '"' t) ||
      (headIs2 '"' '[' t && lastIs2 ']' '"' t)) = false)
    (h4 : jsonValid t = true) (fb : Json) :
    fixColumn (.strv t) fb = t := by
  have htr : jsTrimChars t = t := by rw [ht]; exact jsTrim_idem s
  rw [fixColumn_strv, htr, if_neg h1, if_neg h2]
  simp only [h3, Bool.false_eq_true, if_false]
  simp [h4]

/-- Shape of the unwrapped payload of a double-shaped string: it starts
with the opening container character and ends with the closing one. -/
theorem unwrap_shape {t : List Char} {o c : Char}
    (hh : headIs2 '"' o t = true) (hl : lastIs2 c '"' t = true)
    (hcq : c ≠ '"') (hoc : o ≠ c) (hob : o ≠ '\\') :
    ∃ y, unescQuotes ((t.drop 1).dropLast) = o :: (y ++ [c]) := by
  obtain ⟨t1, rfl⟩ : ∃ t1, t = '"' :: o :: t1 := by
    cases t with
    | nil => simp [headIs2] at hh
    | cons x t' =>
      cases t' with
      | nil => simp [headIs2] at hh
      | cons y t1 =>
        simp only [headIs2, decide_eq_true_eq] at hh
        exact ⟨t1, by rw [hh.1, hh.2]⟩
  have hrev : ('"' :: o :: t1).reverse = t1.reverse ++ [o, '"'] := by simp
  rw [lastIs2, hrev] at hl
  rcases hw : t1.reverse with _ | ⟨e, es⟩
  · rw [hw] at hl
    simp only [List.nil_append, headIs2, decide_eq_true_eq] at hl
    exact absurd hl.2.symm hcq
  · rw [hw] at hl
    cases es with
    | nil =>
      simp only [List.cons_append, List.nil_append, headIs2, decide_eq_true_eq] at hl
      exact absurd hl.2 hoc
    | cons e2 es2 =>
      simp only [List.cons_append, headIs2, decide_eq_true_eq] at hl
      obtain ⟨he, he2⟩ := hl
      have ht1 : t1 = es2.reverse ++ [c, '"'] := by
        have hrw := congrArg List.reverse hw
        rw [he, he2] at hrw
        simpa using hrw
      subst ht1
      have hdrop : (('"' :: o :: (es2.reverse ++ [c, '"'])).drop 1).dropLast =
          o :: (es2.reverse ++ [c]) := by
        show (o :: (es2.reverse ++ [c, '"'])).dropLast = o :: (es2.reverse ++ [c])
        rw [show o :: (es2.reverse ++ [c, '"']) = (o :: (es2.reverse ++ [c])) ++ ['"'] by simp]
        exact List.dropLast_concat ..
      rw [hdrop, unesc_head _ hob]
      obtain ⟨y, hy⟩ := unesc_last es2.reverse c hcq
      exact ⟨y, by rw [hy]⟩

theorem fixColumn_fb_str {fb : Json} (hfb : fb = emptyArrJson ∨ fb = emptyObjJson) :
    fixColumn (.strv (sChars fb)) fb = sChars fb := by
  rcases hfb with rfl | rfl <;> decide

/-- Second-pass stability: `fixColumn` leaves its own output unchanged. -/
theorem fixColumn_stable (raw : RawVal) (fb : Json)
    (hfb : fb = emptyArrJson ∨ fb = emptyObjJson) :
    fixColumn (.strv (fixColumn raw fb)) fb = fixColumn raw fb := by
  cases raw with
  | nullv => exact fixColumn_fb_str hfb
  | boolv b => exact fixColumn_fb_str hfb
  | numv n => exact fixColumn_fb_str hfb
  | objv o =>
    show fixColumn (.strv (sChars (.obj o))) fb = sChars (.obj o)
    exact fixColumn_keeps (sChars (.obj o)) '{' (sObjBody o) '}' rfl
      (by decide) (by decide) (by decide) (jsonValid_sChars _) fb
  | arrv l =>
    show fixColumn (.strv (sChars (.arr l))) fb = sChars (.arr l)
    exact fixColumn_keeps (sChars (.arr l)) '[' (sArrBody l) ']' rfl
      (by decide) (by decide) (by decide) (jsonValid_sChars _) fb
  | strv s =>
    rw [fixColumn_strv s fb]
    by_cases h1 : jsTrimChars s = []
    · simp only [if_pos h1]
      exact fixColumn_fb_str hfb
    by_cases h2 : jsTrimChars s = "[object Object]".toList
    · simp only [if_neg h1, if_pos h2]
      exact fixColumn_fb_str hfb
    by_cases h3 : ((headIs2 '"' '{' (jsTrimChars s) && lastIs2 '}' '"' (jsTrimChars s)) ||
        (headIs2 '"' '[' (jsTrimChars s) && lastIs2 ']' '"' (jsTrimChars s))) = true
    · by_cases h4 : jsonValid (unescQuotes (((jsTrimChars s).drop 1).dropLast)) = true
      · simp only [if_neg h1, if_neg h2, if_pos h3, if_pos h4]
        rcases (by simpa [Bool.and_eq_true, Bool.or_eq_true] using h3 :
          (headIs2 '"' '{' (jsTrimChars s) = true ∧ lastIs2 '}' '"' (jsTrimChars s) = true) ∨
          (headIs2 '"' '[' (jsTrimChars s) = true ∧
            lastIs2 ']' '"' (jsTrimChars s) = true)) with ⟨hh, hl⟩ | ⟨hh, hl⟩
        · obtain ⟨y, hy⟩ := unwrap_shape hh hl (by decide) (by decide) (by decide)
          exact fixColumn_keeps _ '{' y '}' hy (by decide) (by decide) (by decide) h4 fb
        · obtain ⟨y, hy⟩ := unwrap_shape hh hl (by decide) (by decide) (by decide)
          exact fixColumn_keeps _ '[' y ']' hy (by decide) (by decide) (by decide) h4 fb
      · simp only [if_neg h1, if_neg h2, if_pos h3, if_neg h4]
        exact fixColumn_fb_str hfb
    · by_cases h5 : jsonValid (jsTrimChars s) = true
      · simp only [if_neg h1, if_neg h2, if_neg h3, if_pos h5]
        exact fixColumn_keeps_of_trim (jsTrimChars s) rfl h1 h2
          (by simpa using h3) h5 fb
      · simp only [if_neg h1, if_neg h2, if_neg h3, if_neg h5]
        exact fixColumn_fb_str hfb

/-- Every output of `fixColumn` is valid JSON text. -/
theorem jsonValid_fixColumn (raw : RawVal) (fb : Json) :
    jsonValid (fixColumn raw fb) = true := by
  cases raw with
  | nullv => exact jsonValid_sChars fb
  | boolv b => exact jsonValid_sChars fb
  | numv n => exact jsonValid_sChars fb
  | objv o => exact jsonValid_sChars (.obj o)
  | arrv l => exact jsonValid_sChars (.arr l)
  | strv s =>
    rw [fixColumn_strv]
    split_ifs with h1 h2 h3 h4 h5
    · exact jsonValid_sChars fb
    · exact jsonValid_sChars fb
    · exact h4
    · exact jsonValid_sChars fb
    · exact h5
    · exact jsonValid_sChars fb

/-! ## Repair idempotence -/

theorem repairRow_stable (row : TemplateRow) :
    repairRow (repairRow row).1 =
      ((repairRow row).1, ⟨row.id, ⟨false, false, false, false⟩, false⟩) := by
  have he := fixColumn_stable row.elements emptyArrJson (Or.inl rfl)
  have hl := fixColumn_stable row.layout emptyObjJson (Or.inr rfl)
  have hs := fixColumn_stable row.settings emptyObjJson (Or.inr rfl)
  have hb := fixColumn_stable row.branding emptyObjJson (Or.inr rfl)
  simp [repairRow, colChanged, he, hl, hs, hb]

theorem repairAll_rows_eq (rows : List TemplateRow) :
    (repairAll rows).1 = rows.map (fun r => (repairRow r).1) := rfl

theorem repairAll_reps_eq (rows : List TemplateRow) :
    (repairAll rows).2 = rows.map (fun r => (repairRow r).2) := rfl

/-! ## Data-context mapping lemmas -/

theorem jsOrNum_zero_not_nan (x : JSNum) : jsOrNum x (.fin 0) ≠ .nan := by
  cases x with
  | fin q => unfold jsOrNum; split_ifs <;> simp
  | inf n => unfold jsOrNum; split_ifs <;> simp
  | nan => simp [jsOrNum, JSNum.truthy]

theorem numberOrZero_not_nan (v : JSVal) : numberOrZero v ≠ .nan := by
  cases v with
  | num x =>
    cases x with
    | fin q => simp [numberOrZero]
    | inf n => simp [numberOrZero]
    | nan => exact jsOrNum_zero_not_nan _
  | undef => exact jsOrNum_zero_not_nan _
  | null => exact jsOrNum_zero_not_nan _
  | str s => exact jsOrNum_zero_not_nan _

theorem mapRowsAux_length (mk : Nat → ItemData → ItemRow) :
    ∀ (n : Nat) (l : List ItemData), (mapRowsAux mk n l).length = l.length := by
  intro n l
  induction l generalizing n with
  | nil => rfl
  | cons x xs ih => simp [mapRowsAux, ih]

theorem mem_mapRowsAux {mk : Nat → ItemData → ItemRow} :
    ∀ {n : Nat} {l : List ItemData} {row : ItemRow},
      row ∈ mapRowsAux mk n l → ∃ i x, x ∈ l ∧ row = mk i x := by
  intro n l
  induction l generalizing n with
  | nil => intro row h; simp [mapRowsAux] at h
  | cons y ys ih =>
    intro row h
    rw [show mapRowsAux mk n (y :: ys) = mk n y :: mapRowsAux mk (n + 1) ys from rfl,
      List.mem_cons] at h
    rcases h with rfl | h
    · exact ⟨n, y, by simp, rfl⟩
    · obtain ⟨i, x, hx, hrow⟩ := ih h
      exact ⟨i, x, by simp [hx], hrow⟩

theorem mapQ_items (q : QuotationData) :
    (mapQuotationToTemplateData q).items =
      (if (mapRowsAux (mkMappedRow q) 0 q.items).length = 0 then [placeholderRow q]
        else mapRowsAux (mkMappedRow q) 0 q.items) := rfl

theorem row_riskUsage (q : QuotationData) :
    ∀ row ∈ (mapQuotationToTemplateData q).items,
      row.riskUsage = toFixed2 (riskUsageTotalOf q) := by
  intro row hrow
  rw [mapQ_items] at hrow
  by_cases hlen : (mapRowsAux (mkMappedRow q) 0 q.items).length = 0
  · rw [if_pos hlen, List.mem_singleton] at hrow
    subst hrow
    rfl
  · rw [if_neg hlen] at hrow
    obtain ⟨i, x, _, rfl⟩ := mem_mapRowsAux hrow
    rfl

theorem formatCurrency_not_nan {v : JSVal} (h : toNumber v ≠ .nan) :
    ∃ x, formatCurrency v = formatINR x ∧ x ≠ .nan := by
  unfold formatCurrency jsOr
  split_ifs
  · exact ⟨toNumber v, rfl, h⟩
  · exact ⟨.fin 0, rfl, by simp⟩

theorem formatCurrency_num_not_nan (x : JSNum) :
    ∃ y, formatCurrency (.num x) = formatINR y ∧ y ≠ .nan := by
  cases x with
  | fin q =>
    refine formatCurrency_not_nan ?_
    simp [toNumber]
  | inf n =>
    refine formatCurrency_not_nan ?_
    simp [toNumber]
  | nan => exact ⟨.fin 0, rfl, by simp⟩

/-! ## Claims -/

/-- C2: the template repair operation is idempotent: for every set of
stored template rows, running `repairAll` twice leaves the stored rows
unchanged on the second pass, and the second pass's report marks zero
rows as changed. -/
theorem claim_C2_repair_idempotent (rows : List TemplateRow) :
    (repairAll (repairAll rows).1).1 = (repairAll rows).1 ∧
    ((repairAll (repairAll rows).1).2).countP (fun rep => rep.changed) = 0 := by
  constructor
  · rw [repairAll_rows_eq, repairAll_rows_eq, List.map_map]
    apply List.map_congr_left
    intro r _
    show (repairRow ((repairRow r).1)).1 = (repairRow r).1
    rw [repairRow_stable r]
  · rw [repairAll_reps_eq, repairAll_rows_eq, List.map_map]
    rw [List.countP_eq_zero]
    intro rep hrep
    simp only [List.mem_map, Function.comp] at hrep
    obtain ⟨r, _, rfl⟩ := hrep
    simp [repairRow_stable r]

/-- C5 counterexample: the stored string `"{"a":1}"` (with unescaped inner
quotes) is not valid JSON text, yet repair does not normalize it to the
empty default `{}`: the double-shape branch unwraps it to `{"a":1}`. -/
theorem claim_C5_counterexample :
    jsonValid ('"' :: '{' :: ("\"a\":1".toList ++ ['}', '"'])) = false ∧
    fixColumn (.strv ('"' :: '{' :: ("\"a\":1".toList ++ ['}', '"']))) emptyObjJson =
      '{' :: ("\"a\":1".toList ++ ['}']) ∧
    sChars emptyObjJson = ['{', '}'] := by decide

/-- C5 (amended): for each structured column, a `NULL`, empty, literal
`[object Object]`, or invalid stored string is normalized to the empty
default, except that a string of the double-encoded shape (`"{...}"` or
`"[...]"`) is instead unwrapped (outer quotes stripped, `\"` replaced by
`"`) whenever that unwrapping parses — and normalized to the empty default
when it does not. -/
theorem claim_C5_column_normalization (s : List Char) (fb : Json) :
    (fixColumn .nullv fb = sChars fb) ∧
    (jsTrimChars s = [] → fixColumn (.strv s) fb = sChars fb) ∧
    (jsTrimChars s = "[object Object]".toList → fixColumn (.strv s) fb = sChars fb) ∧
    (((headIs2 '"' '{' (jsTrimChars s) && lastIs2 '}' '"' (jsTrimChars s)) ||
        (headIs2 '"' '[' (jsTrimChars s) && lastIs2 ']' '"' (jsTrimChars s))) = false →
      jsonValid (jsTrimChars s) = false → fixColumn (.strv s) fb = sChars fb) ∧
    (((headIs2 '"' '{' (jsTrimChars s) && lastIs2 '}' '"' (jsTrimChars s)) ||
        (headIs2 '"' '[' (jsTrimChars s) && lastIs2 ']' '"' (jsTrimChars s))) = true →
      (jsonValid (unescQuotes (((jsTrimChars s).drop 1).dropLast)) = true →
        fixColumn (.strv s) fb = unescQuotes (((jsTrimChars s).drop 1).dropLast)) ∧
      (jsonValid (unescQuotes (((jsTrimChars s).drop 1).dropLast)) = false →
        fixColumn (.strv s) fb = sChars fb)) := by
  refine ⟨rfl, ?_, ?_, ?_, ?_⟩
  · intro h1
    rw [fixColumn_strv, if_pos h1]
  · intro h2
    rw [fixColumn_strv]
    by_cases h1 : jsTrimChars s = []
    · rw [if_pos h1]
    · rw [if_neg h1, if_pos h2]
  · intro hsh hval
    rw [fixColumn_strv]
    by_cases h1 : jsTrimChars s = []
    · rw [if_pos h1]
    by_cases h2 : jsTrimChars s = "[object Object]".toList
    · rw [if_neg h1, if_pos h2]
    rw [if_neg h1, if_neg h2]
    simp only [hsh, Bool.false_eq_true, if_false]
    rw [if_neg (ne_true_of_eq_false hval)]
  · intro hsh
    have h1 : jsTrimChars s ≠ [] := by
      intro h
      rw [h] at hsh
      exact absurd hsh (by decide)
    have h2 : jsTrimChars s ≠ "[object Object]".toList := by
      intro h
      rw [h] at hsh
      exact absurd hsh (by decide)
    constructor
    · intro hu
      rw [fixColumn_strv, if_neg h1, if_neg h2, if_pos hsh, if_pos hu]
    · intro hu
      rw [fixColumn_strv, if_neg h1, if_neg h2, if_pos hsh,
        if_neg (ne_true_of_eq_false hu)]

/-- C5 witness: a genuine double-encoded array unwraps to its single
well-formed encoding; an unparsable string normalizes to the default. -/
theorem claim_C5_witness :
    fixColumn (.strv ('"' :: '[' :: ("1,2".toList ++ [']', '"']))) emptyArrJson =
      '[' :: ("1,2".toList ++ [']']) ∧
    fixColumn (.strv "nonsense".toList) emptyObjJson = sChars emptyObjJson :=
  ⟨((claim_C5_column_normalization ('"' :: '[' :: ("1,2".toList ++ [']', '"']))
      emptyArrJson).2.2.2.2 (by decide)).1 (by decide),
    (claim_C5_column_normalization "nonsense".toList emptyObjJson).2.2.2.1
      (by decide) (by decide)⟩

/-- C10: for every possible stored column value — `NULL`, an
already-decoded object or array, a non-string scalar, or an arbitrary
string — `fixColumn` returns a string that parses as valid structured
data; hence every value the repair endpoint writes back is well-formed
encoded text. -/
theorem claim_C10_fixColumn_total_valid :
    (∀ (raw : RawVal) (fb : Json), jsonValid (fixColumn raw fb) = true) ∧
    (∀ row : TemplateRow, ∃ s₁ s₂ s₃ s₄,
      (repairRow row).1 = ⟨row.id, .strv s₁, .strv s₂, .strv s₃, .strv s₄⟩ ∧
      jsonValid s₁ = true ∧ jsonValid s₂ = true ∧
      jsonValid s₃ = true ∧ jsonValid s₄ = true) :=
  ⟨jsonValid_fixColumn, fun row =>
    ⟨_, _, _, _, rfl, jsonValid_fixColumn _ _, jsonValid_fixColumn _ _,
      jsonValid_fixColumn _ _, jsonValid_fixColumn _ _⟩⟩

/-- C3: the item-row list produced by the data-context mapping always has
length at least 1: with zero equipment line items, exactly one placeholder
row (built from the record's top-level machine type and base rate) is
synthesized. -/
theorem claim_C3_items_never_empty (q : QuotationData) :
    1 ≤ (mapQuotationToTemplateData q).items.length ∧
    (q.items = [] → (mapQuotationToTemplateData q).items = [placeholderRow q]) := by
  constructor
  · rw [mapQ_items]
    split_ifs with h
    · simp
    · have hlen := mapRowsAux_length (mkMappedRow q) 0 q.items
      omega
  · intro hq
    rw [mapQ_items, hq]
    rfl

/-- C3 witness: a record with no line items yields exactly the
placeholder row. -/
theorem claim_C3_witness :
    (mapQuotationToTemplateData emptyQuotation).items = [placeholderRow emptyQuotation] :=
  (claim_C3_items_never_empty emptyQuotation).2 rfl

/-- C6 counterexample: a record whose `total_rent` is the unparsable,
truthy string `"abc"` renders `totals.subtotal` as `₹NaN`: the totals
inputs are defaulted with `|| 0` only, so an unparsable truthy value is
not mapped to 0 and a NaN reaches the produced context. -/
theorem claim_C6_counterexample :
    (mapQuotationToTemplateData
      { emptyQuotation with total_rent := .str "abc".toList }).totals.subtotal =
      '₹' :: "NaN".toList ∧
    toNumber (jsOr ({ emptyQuotation with total_rent := .str "abc".toList } :
      QuotationData).total_rent (.num (.fin 0))) = .nan := by
  constructor
  · decide
  · decide

/-- C6 (amended): `numberOrZero` is a NaN guard, not a finiteness guard:
it never returns NaN (an unparsable or missing source defaults to 0), so
the directly guarded row fields — quantity, rate and mobDemob — are never
NaN; but a source reading as `±Infinity` (the `Infinity` literal, or a
numeral beyond the double range) passes straight through, and the raw
`+` over the risk/usage pair turns opposite infinities into NaN, stamping
`riskUsage = "NaN"` on every produced row; the `|| 0` totals inputs
(subtotal, tax, total and the cost fields) let a truthy unparsable value
through to currency formatting, so they render NaN-free only when the
source does not coerce to NaN, while the three risk/usage totals are
always NaN-free thanks to the `amount || 0` guard inside
`formatCurrency`. -/
theorem claim_C6_numeric_coercion (q : QuotationData) :
    (∀ v, numberOrZero v ≠ .nan) ∧
    (∀ row ∈ (mapQuotationToTemplateData q).items,
      row.quantity ≠ .nan ∧
      (∃ b, row.rate = toFixed2 b ∧ b ≠ .nan) ∧
      (∃ d, row.mobDemob = toFixed2 d ∧ d ≠ .nan)) ∧
    numberOrZero (.str "Infinity".toList) = .inf false ∧
    (∀ row ∈ (mapQuotationToTemplateData
        { q with risk_adjustment := .str "Infinity".toList,
                 usage_load_factor := .str "-Infinity".toList }).items,
      row.riskUsage = "NaN".toList) ∧
    (toNumber (jsOr q.total_rent (.num (.fin 0))) ≠ .nan →
      ∃ x, (mapQuotationToTemplateData q).totals.subtotal = formatINR x ∧ x ≠ .nan) ∧
    (toNumber (jsOr q.gst_amount (.num (.fin 0))) ≠ .nan →
      ∃ x, (mapQuotationToTemplateData q).totals.tax = formatINR x ∧ x ≠ .nan) ∧
    (toNumber (jsOr q.total_cost (.num (.fin 0))) ≠ .nan →
      ∃ x, (mapQuotationToTemplateData q).totals.total = formatINR x ∧ x ≠ .nan) ∧
    (∃ x, (mapQuotationToTemplateData q).totals.riskAdjustment = formatINR x ∧ x ≠ .nan) ∧
    (∃ x, (mapQuotationToTemplateData q).totals.usageLoadFactor = formatINR x ∧ x ≠ .nan) ∧
    (∃ x, (mapQuotationToTemplateData q).totals.riskUsageTotal = formatINR x ∧ x ≠ .nan) := by
  refine ⟨numberOrZero_not_nan, ?_, by decide, ?_, ?_, ?_, ?_, ?_, ?_, ?_⟩
  · intro row hrow
    rw [mapQ_items] at hrow
    by_cases hlen : (mapRowsAux (mkMappedRow q) 0 q.items).length = 0
    · rw [if_pos hlen, List.mem_singleton] at hrow
      subst hrow
      refine ⟨?_, ?_, ?_⟩
      · show (JSNum.fin 1) ≠ .nan
        simp
      · exact ⟨numberOrZero (jsOr (jsOr q.base_rate q.rate) (.num (.fin 0))), rfl,
          numberOrZero_not_nan _⟩
      · exact ⟨numberOrZero q.mob_demob_cost, rfl, numberOrZero_not_nan _⟩
    · rw [if_neg hlen] at hrow
      obtain ⟨i, x, _, rfl⟩ := mem_mapRowsAux hrow
      refine ⟨?_, ?_, ?_⟩
      · show numberOrZero (jsOr (jsOr x.quantity x.qty) (.num (.fin 1))) ≠ .nan
        exact numberOrZero_not_nan _
      · exact ⟨numberOrZero (jsOr (jsOr (jsOr x.rate x.base_rate) x.unit_price)
          (.num (.fin 0))), rfl, numberOrZero_not_nan _⟩
      · exact ⟨numberOrZero q.mob_demob_cost, rfl, numberOrZero_not_nan _⟩
  · intro row hrow
    have hnan : riskUsageTotalOf
        { q with risk_adjustment := .str "Infinity".toList,
                 usage_load_factor := .str "-Infinity".toList } = .nan := by
      show (numberOrZero (.str "Infinity".toList)).add
        (numberOrZero (.str "-Infinity".toList)) = .nan
      decide
    have hr := row_riskUsage _ row hrow
    rw [hnan] at hr
    exact hr
  · intro h
    exact formatCurrency_not_nan h
  · intro h
    exact formatCurrency_not_nan h
  · intro h
    exact formatCurrency_not_nan h
  · exact formatCurrency_num_not_nan (numberOrZero q.risk_adjustment)
  · exact formatCurrency_num_not_nan (numberOrZero q.usage_load_factor)
  · exact formatCurrency_num_not_nan
      ((numberOrZero q.risk_adjustment).add (numberOrZero q.usage_load_factor))

/-- C6 witness: on a record with no line items, the placeholder row's
guarded fields are not NaN; with `risk_adjustment = "Infinity"` and
`usage_load_factor = "-Infinity"` every row's riskUsage reads `"NaN"`;
and the three conditional totals of an absent-source record are
NaN-free. -/
theorem claim_C6_witness :
    ((placeholderRow emptyQuotation).quantity ≠ .nan ∧
      (∃ b, (placeholderRow emptyQuotation).rate = toFixed2 b ∧ b ≠ .nan) ∧
      (∃ d, (placeholderRow emptyQuotation).mobDemob = toFixed2 d ∧ d ≠ .nan)) ∧
    (∀ row ∈ (mapQuotationToTemplateData
        { emptyQuotation with risk_adjustment := .str "Infinity".toList,
                              usage_load_factor := .str "-Infinity".toList }).items,
      row.riskUsage = "NaN".toList) ∧
    (∃ x, (mapQuotationToTemplateData emptyQuotation).totals.subtotal =
      formatINR x ∧ x ≠ .nan) ∧
    (∃ x, (mapQuotationToTemplateData emptyQuotation).totals.tax =
      formatINR x ∧ x ≠ .nan) ∧
    (∃ x, (mapQuotationToTemplateData emptyQuotation).totals.total =
      formatINR x ∧ x ≠ .nan) :=
  ⟨(claim_C6_numeric_coercion emptyQuotation).2.1 (placeholderRow emptyQuotation)
      (by rw [mapQ_items]; exact List.mem_singleton.mpr rfl),
    (claim_C6_numeric_coercion emptyQuotation).2.2.2.1,
    (claim_C6_numeric_coercion emptyQuotation).2.2.2.2.1 (by decide),
    (claim_C6_numeric_coercion emptyQuotation).2.2.2.2.2.1 (by decide),
    (claim_C6_numeric_coercion emptyQuotation).2.2.2.2.2.2.1 (by decide)⟩

/-- C7 counterexample: a record with `number_of_days = 2` and no line
items produces the placeholder row with duration `"2 day"`, although the
number of days is 2 ≠ 1 (the claim demands `"2 days"`). -/
theorem claim_C7_counterexample :
    ((mapQuotationToTemplateData
      { emptyQuotation with number_of_days := .num (.fin 2) }).items.map
        (fun r => r.duration)) = ["2 day".toList] ∧
    durationDaysOf { emptyQuotation with number_of_days := .num (.fin 2) } = .fin 2 ∧
    (2 : ℚ) ≠ 1 := by
  refine ⟨by decide, by decide, by decide⟩

/-- C7 (amended): mapped equipment rows pluralize the duration by
`days == 1` (`"{n} day"` vs `"{n} days"`); the synthesized placeholder
row always uses the singular `"{n} day"`, regardless of the number of
days. -/
theorem claim_C7_duration_pluralization (q : QuotationData) :
    (q.items ≠ [] → ∀ row ∈ (mapQuotationToTemplateData q).items,
      row.duration = jsNumToStr (durationDaysOf q) ++ ' ' ::
        (if durationDaysOf q = .fin 1 then "day".toList else "days".toList)) ∧
    (q.items = [] → ∀ row ∈ (mapQuotationToTemplateData q).items,
      row.duration = jsNumToStr (durationDaysOf q) ++ ' ' :: "day".toList) := by
  constructor
  · intro hne row hrow
    rw [mapQ_items] at hrow
    have hlen : (mapRowsAux (mkMappedRow q) 0 q.items).length ≠ 0 := by
      rw [mapRowsAux_length]
      simpa using hne
    rw [if_neg hlen] at hrow
    obtain ⟨i, x, _, rfl⟩ := mem_mapRowsAux hrow
    rfl
  · intro hq row hrow
    rw [mapQ_items, hq] at hrow
    have hz : (mapRowsAux (mkMappedRow q) 0 ([] : List ItemData)).length = 0 := rfl
    rw [if_pos hz, List.mem_singleton] at hrow
    subst hrow
    rfl

/-- C7 witness: at two days and no items, the placeholder duration reads
`"2 day"`. -/
theorem claim_C7_witness :
    (placeholderRow { emptyQuotation with number_of_days := .num (.fin 2) }).duration =
      jsNumToStr (durationDaysOf
        { emptyQuotation with number_of_days := .num (.fin 2) }) ++ ' ' :: "day".toList :=
  (claim_C7_duration_pluralization
    { emptyQuotation with number_of_days := .num (.fin 2) }).2 rfl
    (placeholderRow { emptyQuotation with number_of_days := .num (.fin 2) })
    (by rw [mapQ_items]; exact List.mem_singleton.mpr rfl)

/-- C1: a preview or iframe-preview request with an explicit template id
fails with the 404 response whenever the id is absent from the store, the
load fails (including an unreachable store), or the loaded template's id
differs from the requested one; a successful outcome always carries
exactly the requested template — the default is never silently
substituted. -/
theorem claim_C1_explicit_template_404 (rs : List StoreRow)
    (load : List Char → Option TemplateModel) (tid : List Char) :
    (((rs.filter (fun r => r.id = tid)).isEmpty = true ∨ load tid = none ∨
        (∀ t, load tid = some t → t.id ≠ tid)) →
      selectPreviewTemplate (.rows rs) load (some tid) = .notFound404) ∧
    (∀ t, selectPreviewTemplate (.rows rs) load (some tid) = .ok t → t.id = tid) ∧
    selectPreviewTemplate .unreachable load (some tid) = .notFound404 := by
  refine ⟨?_, ?_, rfl⟩
  · intro h
    show resolveExplicitTemplate rs load tid = .notFound404
    unfold resolveExplicitTemplate
    rcases h with h | h | h
    · rw [if_pos h]
    · split_ifs
      · rfl
      · rw [h]
    · split_ifs
      · rfl
      · cases hl : load tid with
        | none => rfl
        | some t => simp only [if_pos (h t hl)]
  · intro t ht
    have ht2 : resolveExplicitTemplate rs load tid = .ok t := ht
    unfold resolveExplicitTemplate at ht2
    split_ifs at ht2
    cases hl : load tid with
    | none => rw [hl] at ht2; exact absurd ht2 (by simp)
    | some t' =>
      rw [hl] at ht2
      have ht3 : (if t'.id ≠ tid then PreviewOutcome.notFound404
        else PreviewOutcome.ok t') = PreviewOutcome.ok t := ht2
      by_cases hne : t'.id ≠ tid
      · rw [if_pos hne] at ht3
        exact absurd ht3 (by simp)
      · rw [if_neg hne] at ht3
        have htt : t' = t := by injection ht3
        rw [← htt]
        simpa using hne

/-- C1 witness: an id absent from the store yields the 404 outcome, and
no template substitution ever occurs. -/
theorem claim_C1_witness :
    selectPreviewTemplate (.rows []) (fun _ => none) (some "tpl9".toList) =
      .notFound404 :=
  (claim_C1_explicit_template_404 [] (fun _ => none) "tpl9".toList).1 (Or.inl rfl)

/-- C4: resolving with no explicit id, when the store is unreachable or
holds no active default template, returns the non-null built-in fallback
template, whose elements include the header, company info, client info,
items table and totals blocks. -/
theorem claim_C4_fallback_never_empty (load : List Char → Option TemplateModel)
    (store : StoreState)
    (h : store = .unreachable ∨ ∃ rs, store = .rows rs ∧ pickDefault rs = none) :
    getDefaultTemplate load store = createDefaultQuotationTemplate ∧
    1 ≤ (getDefaultTemplate load store).elements.length ∧
    (⟨"header".toList⟩ : ElementModel) ∈ (getDefaultTemplate load store).elements ∧
    (⟨"company_info".toList⟩ : ElementModel) ∈ (getDefaultTemplate load store).elements ∧
    (⟨"client_info".toList⟩ : ElementModel) ∈ (getDefaultTemplate load store).elements ∧
    (⟨"items_table".toList⟩ : ElementModel) ∈ (getDefaultTemplate load store).elements ∧
    (⟨"totals".toList⟩ : ElementModel) ∈ (getDefaultTemplate load store).elements := by
  have heq : getDefaultTemplate load store = createDefaultQuotationTemplate := by
    rcases h with rfl | ⟨rs, rfl, hpd⟩
    · rfl
    · show (match pickDefault rs with
        | none => createDefaultQuotationTemplate
        | some r =>
          match load r.id with
          | some t => t
          | none => createDefaultQuotationTemplate) = createDefaultQuotationTemplate
      rw [hpd]
  rw [heq]
  refine ⟨rfl, by decide, by decide, by decide, by decide, by decide, by decide⟩

/-- C4 witness: with an empty store (no default rows), the built-in
fallback is returned and contains the five required blocks. -/
theorem claim_C4_witness :
    getDefaultTemplate (fun _ => none) (.rows []) = createDefaultQuotationTemplate ∧
    1 ≤ (getDefaultTemplate (fun _ => none) (.rows [])).elements.length ∧
    (⟨"header".toList⟩ : ElementModel) ∈
      (getDefaultTemplate (fun _ => none) (.rows [])).elements ∧
    (⟨"company_info".toList⟩ : ElementModel) ∈
      (getDefaultTemplate (fun _ => none) (.rows [])).elements ∧
    (⟨"client_info".toList⟩ : ElementModel) ∈
      (getDefaultTemplate (fun _ => none) (.rows [])).elements ∧
    (⟨"items_table".toList⟩ : ElementModel) ∈
      (getDefaultTemplate (fun _ => none) (.rows [])).elements ∧
    (⟨"totals".toList⟩ : ElementModel) ∈
      (getDefaultTemplate (fun _ => none) (.rows [])).elements :=
  claim_C4_fallback_never_empty (fun _ => none) (.rows []) (Or.inr ⟨[], rfl, rfl⟩)

/-- C8: the iframe cache validator is a pure function of the triple
(effective template id, effective updated-at timestamp, degraded flag):
two sources agreeing on the triple produce identical weak ETags, and a
request whose `If-None-Match` equals the computed ETag is answered with
status 304 and an empty body. -/
theorem claim_C8_etag_pure_and_304 (t1 t2 : EtagSource) (d1 d2 : Bool)
    (inm : Option (List Char)) (html : List Char) :
    (jsOr t1.id (.str "default".toList) = jsOr t2.id (.str "default".toList) →
      jsOr (jsOr t1.updated_at t1.updatedAt) (.str "na".toList) =
        jsOr (jsOr t2.updated_at t2.updatedAt) (.str "na".toList) →
      d1 = d2 → etagOf t1 d1 = etagOf t2 d2) ∧
    (inm = some (etagOf t1 d1) →
      iframeCacheStep (etagOf t1 d1) inm html = ⟨304, []⟩) := by
  constructor
  · intro h1 h2 h3
    unfold etagOf etagSeedOf
    rw [h1, h2, h3]
  · intro h
    unfold iframeCacheStep
    rw [if_pos h]

/-- C8 witness: two sources with the same triple (one carrying the
timestamp in `updated_at`, the other in `updatedAt`) yield the same ETag,
and a matching `If-None-Match` yields 304 with an empty body. -/
theorem claim_C8_witness :
    etagOf ⟨.str "tpl1".toList, .str "2024".toList, .undef⟩ false =
      etagOf ⟨.str "tpl1".toList, .undef, .str "2024".toList⟩ false ∧
    iframeCacheStep (etagOf ⟨.str "tpl1".toList, .str "2024".toList, .undef⟩ false)
      (some (etagOf ⟨.str "tpl1".toList, .str "2024".toList, .undef⟩ false))
      "page".toList = ⟨304, []⟩ :=
  ⟨(claim_C8_etag_pure_and_304 ⟨.str "tpl1".toList, .str "2024".toList, .undef⟩
      ⟨.str "tpl1".toList, .undef, .str "2024".toList⟩ false false none []).1
      (by decide) (by decide) rfl,
    (claim_C8_etag_pure_and_304 ⟨.str "tpl1".toList, .str "2024".toList, .undef⟩
      ⟨.str "tpl1".toList, .undef, .str "2024".toList⟩ false false
      (some (etagOf ⟨.str "tpl1".toList, .str "2024".toList, .undef⟩ false))
      "page".toList).2 rfl⟩

end AspCranes
